import Mathlib

set_option linter.unusedVariables false

/-!
# Verification of the ThingTalk static type checker

This file is a shallow embedding, in Lean 4, of the ThingTalk static semantic
analyzer (the recursive type checker found in the repository's `typecheck.js`,
shipped here inside `src/test/test_all.js`), together with theorems settling a
list of claims about it.

The embedding follows the JavaScript source line by line wherever that source
is present in the repository.  A few collaborator modules the checker imports
are not part of `src/` (the `Type` module with `isAssignable`, the
`ScalarExpressionOps` and `Aggregations` operator tables, the schema `clone`
helper and the builtin `emptyFunction` / `notify` signatures); those are
modelled from the specification document and are marked `Modelled from the
spec:` in their doc comments.

JavaScript objects used as string-keyed dictionaries are modelled as
insertion-ordered association lists (`List (String × α)`): JS `for ... in`
iterates keys in insertion order, assignment to an existing key keeps its
position, and `delete` removes it.  Mutation of shared objects, which two of
the claims are about, is modelled explicitly with a small heap in the last
part of the file.
-/

namespace ThingTalk

/-! ## Association-list helpers (JS object semantics) -/

/-- First-match lookup, i.e. reading `m[k]` from a JS object. -/
def aget {α : Type} (m : List (String × α)) (k : String) : Option α :=
  match m with
  | [] => none
  | (k', v) :: rest => if k' = k then some v else aget rest k

/-- JS assignment `m[k] = v`: overwrite in place if the key exists
(keeping its position), otherwise append. -/
def aset {α : Type} (m : List (String × α)) (k : String) (v : α) : List (String × α) :=
  match m with
  | [] => [(k, v)]
  | (k', v') :: rest => if k' = k then (k', v) :: rest else (k', v') :: aset rest k v

/-- JS `delete m[k]`: remove every pair with key `k`
(JS objects have unique keys, so at most one is present). -/
def adel {α : Type} (m : List (String × α)) (k : String) : List (String × α) :=
  match m with
  | [] => []
  | (k', v) :: rest => if k' = k then adel rest k else (k', v) :: adel rest k

/-- The keys of an object, in order (`Object.keys`). -/
def akeys {α : Type} (m : List (String × α)) : List String :=
  m.map Prod.fst

/-- `Object.assign(target, src)`: write every entry of `src` over `target`,
in the iteration order of `src`. -/
def aassign {α : Type} (target src : List (String × α)) : List (String × α) :=
  src.foldl (fun acc p => aset acc p.1 p.2) target

/-- Key membership, i.e. the JS test `k in m`. -/
def amem {α : Type} (m : List (String × α)) (k : String) : Bool :=
  (aget m k).isSome

/-! ## The type lattice

Modelled from the spec: the `Type` module (spec section 3 and 4.1) is not
under `src/`.  Type variables and tuples are omitted: none of the operator
tables used by the checker fragment embedded below mentions them, and the
only unification the tables need is the `_unit` variable of `Measure`. -/

/-- ThingTalk types (spec section 3, "Type"). -/
inductive TType where
  | boolean
  | number
  | string
  | date
  | time
  | location
  | currency
  | any
  | measure (unit : String)
  | entity (kind : String)
  | enum (choices : List String)
  | array (elem : TType)
deriving DecidableEq, Repr

/-- `type.isEntity` in the JS source. -/
def TType.isEntity : TType → Bool
  | .entity _ => true
  | _ => false

/-- `type.isMeasure` in the JS source. -/
def TType.isMeasure : TType → Bool
  | .measure _ => true
  | _ => false

/-- `type.isNumber` in the JS source. -/
def TType.isNumber : TType → Bool
  | .number => true
  | _ => false

/-- The type-variable scope threaded through one overload attempt.  With type
variables omitted, only the `_unit` binding remains (`none` = unbound). -/
abbrev TypeScope := Option String

/-- Modelled from the spec: `Type.isAssignable(src, dst, typeVarScope, coerce)`
(spec section 4.1); the `Type` module is not under `src/`.  Rules, in order:
`Any` on either side matches; `Measure(u_src)` vs `Measure(u_dst)` binds or
checks the `_unit` variable when `u_dst` is empty and otherwise requires equal
units; entities match only on equal kind; arrays recurse; identical types
match; and when `coerce` is set any type is assignable to `String`.
Returns the updated type-variable scope alongside the verdict. -/
def isAssignable (src dst : TType) (ts : TypeScope) (coerce : Bool) : Bool × TypeScope :=
  match src, dst with
  | _, .any => (true, ts)
  | .any, _ => (true, ts)
  | .measure us, .measure ud =>
    if ud = "" then
      match ts with
      | none => (true, some us)
      | some u => (u == us, ts)
    else (us == ud, ts)
  | .entity ks, .entity kd => (ks == kd, ts)
  | .array es, .array ed => isAssignable es ed ts coerce
  | s, d =>
    if s = d then (true, ts)
    else if coerce ∧ d = .string then (true, ts)
    else (false, ts)

/-- `resolveTypeVars` (typecheck.js): substitute the measure `_unit` binding.
The JS guard `typeScope._unit` is falsy for the empty string, so an empty
binding leaves the type unchanged. -/
def resolveTypeVars (t : TType) (ts : TypeScope) : TType :=
  match t with
  | .array e => .array (resolveTypeVars e ts)
  | .measure u =>
    match ts with
    | some u' => if u' = "" then .measure u else .measure u'
    | none => .measure u
  | other => other

/-! ## Errors raised by the checker -/

/-- The typed errors thrown by the checker (`throw new TypeError(...)` in the
JS source), one constructor per distinct message shape. -/
inductive TCError where
  | invalidOperator (op : String)
  | invalidParameterTypes (t1 : TType) (op : String) (t2 : TType)
  | invalidAggregationField (f : String)
  | invalidAggregation (op : String)
  | starNotValidArgument (op : String)
  | invalidFieldType (t : TType) (op : String)
  | invalidFieldName (a : String)
  | conflictOnUsing (n : String)
  | conflictedFieldName (n : String)
  | variableNotInScope (n : String)
  | invalidFilterParameter (n : String)
  | invalidInputParameter (n : String)
  | invalidTypeForParameter (n : String)
  | duplicateInputParam (n : String)
  | noGetFunction
  | invalidBuiltinAction (ch : String)
  | cannotAccessEvent
deriving DecidableEq, Repr

/-! ## Operator tables -/

/-- A three-place overload signature `[operand1, operand2, result]`. -/
structure Overload where
  t1 : TType
  t2 : TType
  r : TType
deriving DecidableEq, Repr

/-- `Builtin.BinaryOps` (src/lib/builtin.js, lines 41-119): the filter
comparison operator table, transcribed overload by overload. -/
def BinaryOps : String → Option (List Overload)
  | "+" => some [⟨.measure "", .measure "", .measure ""⟩,
                 ⟨.number, .number, .number⟩,
                 ⟨.string, .string, .string⟩]
  | "-" => some [⟨.measure "", .measure "", .measure ""⟩,
                 ⟨.number, .number, .number⟩,
                 ⟨.date, .date, .measure "ms"⟩]
  | "*" => some [⟨.measure "", .number, .measure ""⟩,
                 ⟨.number, .measure "", .measure ""⟩,
                 ⟨.number, .number, .number⟩]
  | "/" => some [⟨.measure "", .measure "", .number⟩,
                 ⟨.number, .number, .number⟩]
  | "&&" => some [⟨.boolean, .boolean, .boolean⟩]
  | "||" => some [⟨.boolean, .boolean, .boolean⟩]
  | ">" => some [⟨.string, .string, .boolean⟩,
                 ⟨.measure "", .measure "", .boolean⟩,
                 ⟨.number, .number, .boolean⟩,
                 ⟨.date, .date, .boolean⟩]
  | "<" => some [⟨.string, .string, .boolean⟩,
                 ⟨.measure "", .measure "", .boolean⟩,
                 ⟨.number, .number, .boolean⟩,
                 ⟨.date, .date, .boolean⟩]
  | ">=" => some [⟨.string, .string, .boolean⟩,
                  ⟨.measure "", .measure "", .boolean⟩,
                  ⟨.number, .number, .boolean⟩,
                  ⟨.date, .date, .boolean⟩]
  | "<=" => some [⟨.string, .string, .boolean⟩,
                  ⟨.measure "", .measure "", .boolean⟩,
                  ⟨.number, .number, .boolean⟩,
                  ⟨.date, .date, .boolean⟩]
  | "=" => some [⟨.any, .any, .any⟩]
  | "!=" => some [⟨.any, .any, .any⟩]
  | "=~" => some [⟨.string, .string, .string⟩]
  | _ => none

/-- Modelled from the spec: `Builtin.ScalarExpressionOps` (spec section 4.2,
item 2: "Scalar arithmetic operators (+, -, *, /): numeric and measure
overloads, with `Date - Date = Measure(ms)`"; section 8: "`Date + Measure(ms)`
resolves to `Date`").  The table is not under `src/`. -/
def ScalarExpressionOps : String → Option (List Overload)
  | "+" => some [⟨.number, .number, .number⟩,
                 ⟨.measure "", .measure "", .measure ""⟩,
                 ⟨.date, .measure "ms", .date⟩]
  | "-" => some [⟨.number, .number, .number⟩,
                 ⟨.measure "", .measure "", .measure ""⟩,
                 ⟨.date, .date, .measure "ms"⟩]
  | "*" => some [⟨.measure "", .number, .measure ""⟩,
                 ⟨.number, .measure "", .measure ""⟩,
                 ⟨.number, .number, .number⟩]
  | "/" => some [⟨.measure "", .measure "", .number⟩,
                 ⟨.number, .number, .number⟩]
  | _ => none

/-- A two-place aggregation signature `[operand, result]`. -/
structure AggOverload where
  t1 : TType
  r : TType
deriving DecidableEq, Repr

/-- Modelled from the spec: `Builtin.Aggregations` (spec section 4.2, item 3:
"count(*) = Number; min/max preserve element type; sum/avg numeric or
dimensioned").  The table is not under `src/`. -/
def Aggregations : String → Option (List AggOverload)
  | "count" => some [⟨.any, .number⟩]
  | "min" => some [⟨.number, .number⟩,
                   ⟨.measure "", .measure ""⟩,
                   ⟨.date, .date⟩,
                   ⟨.time, .time⟩,
                   ⟨.currency, .currency⟩,
                   ⟨.string, .string⟩]
  | "max" => some [⟨.number, .number⟩,
                   ⟨.measure "", .measure ""⟩,
                   ⟨.date, .date⟩,
                   ⟨.time, .time⟩,
                   ⟨.currency, .currency⟩,
                   ⟨.string, .string⟩]
  | "sum" => some [⟨.number, .number⟩,
                   ⟨.measure "", .measure ""⟩,
                   ⟨.currency, .currency⟩]
  | "avg" => some [⟨.number, .number⟩,
                   ⟨.measure "", .measure ""⟩,
                   ⟨.currency, .currency⟩]
  | _ => none

/-! ## Overload resolution (typecheck.js) -/

/-- One iteration of the overload walk of `resolveFilterOverload`: open a
fresh type-variable scope, try both operands, and (for filters) require the
result slot to be assignable to `Boolean`. -/
def filterOverloadStep (type_lhs type_rhs : TType) (ov : Overload) : Bool :=
  let s0 : TypeScope := none
  let (ok1, s1) := isAssignable type_lhs ov.t1 s0 true
  if ¬ ok1 then false else
  let (ok2, s2) := isAssignable type_rhs ov.t2 s1 true
  if ¬ ok2 then false else
  let (ok3, _) := isAssignable ov.r .boolean s2 true
  ok3

/-- The overload walk of `resolveFilterOverload` (typecheck.js lines
299-308): signatures are tried in order, the first success is returned. -/
def filterOverloadWalk (type_lhs type_rhs : TType) : List Overload → Option Overload
  | [] => none
  | ov :: rest =>
    if filterOverloadStep type_lhs type_rhs ov then some ov
    else filterOverloadWalk type_lhs type_rhs rest

/-- `resolveFilterOverload(type_lhs, operator, type_rhs)` (typecheck.js lines
289-310): look the operator up in `BinaryOps`; reject `=~` outright when the
left-hand side is an `Entity` (before any overload is tried); otherwise walk
the overload list. -/
def resolveFilterOverload (type_lhs : TType) (operator : String) (type_rhs : TType) :
    Except TCError Overload :=
  match BinaryOps operator with
  | none => .error (.invalidOperator operator)
  | some op =>
    if type_lhs.isEntity ∧ operator = "=~" then
      .error (.invalidParameterTypes type_lhs operator type_rhs)
    else
      match filterOverloadWalk type_lhs type_rhs op with
      | some ov => .ok ov
      | none => .error (.invalidParameterTypes type_lhs operator type_rhs)

/-- The overload walk of `resolveScalarExpressionOps` (typecheck.js lines
252-262): on success, if the result slot is a measure and the `_unit`
variable was bound, return `Measure(_unit)`, else the result slot itself. -/
def scalarOverloadWalk (type_lhs type_rhs : TType) : List Overload → Option TType
  | [] => none
  | ov :: rest =>
    let s0 : TypeScope := none
    let (ok1, s1) := isAssignable type_lhs ov.t1 s0 true
    if ¬ ok1 then scalarOverloadWalk type_lhs type_rhs rest else
    let (ok2, s2) := isAssignable type_rhs ov.t2 s1 true
    if ¬ ok2 then scalarOverloadWalk type_lhs type_rhs rest else
    match ov.r, s2 with
    | .measure _, some u =>
      -- the JS guard is `typeScope['_unit']`, which is falsy for ""
      if u = "" then some ov.r else some (.measure u)
    | r, _ => some r

/-- `resolveScalarExpressionOps(type_lhs, operator, type_rhs)` (typecheck.js
lines 248-264). -/
def resolveScalarExpressionOps (type_lhs : TType) (operator : String) (type_rhs : TType) :
    Except TCError TType :=
  match ScalarExpressionOps operator with
  | none => .error (.invalidOperator operator)
  | some op =>
    match scalarOverloadWalk type_lhs type_rhs op with
    | some t => .ok t
    | none => .error (.invalidParameterTypes type_lhs operator type_rhs)

/-- The overload walk of `resolveAggregationOverload` (typecheck.js lines
357-364): the first signature whose operand slot accepts the field type wins;
the recorded overload has its type variables resolved. -/
def aggOverloadWalk (fieldType : TType) : List AggOverload → Option (AggOverload × TType)
  | [] => none
  | ov :: rest =>
    let s0 : TypeScope := none
    let (ok1, s1) := isAssignable fieldType ov.t1 s0 true
    if ¬ ok1 then aggOverloadWalk fieldType rest
    else
      let resolved : AggOverload := ⟨resolveTypeVars ov.t1 s1, resolveTypeVars ov.r s1⟩
      some (resolved, resolved.r)

/-! ## The schema model

The structured function signature held in a node's `schema` field (spec
section 3, "Schema").  All components are modelled by value; the `clone`
helper (not under `src/`, modelled from the spec: "cloning ... helpers",
"Model schemas with value semantics") therefore is the identity in this pure
part of the embedding.  Object identity and in-place mutation, which two
claims are about, are treated separately with an explicit heap below. -/

/-- A function signature: `args`, `types`, `index`, `inReq`, `inOpt`, `out`. -/
structure ExprSignature where
  args : List String
  types : List TType
  index : List (String × Nat)
  inReq : List (String × TType)
  inOpt : List (String × TType)
  out : List (String × TType)
deriving DecidableEq, Repr

/-! ## Scope (typecheck.js lines 55-180) -/

/-- A value bound in the scope: the local map normally holds types, but
`Scope.merge` routes global schemas through `add`, so after a merge a local
binding may hold a whole signature. -/
inductive SVal where
  | sch (s : ExprSignature)
  | ty (t : TType)
deriving DecidableEq, Repr

/-- The lexical environment threaded through the checker.  The
`_lambda_args` map is omitted: no claim settled in this file touches the
lambda-rename machinery. -/
structure Scope where
  globalScope : List (String × ExprSignature)
  scope : List (String × SVal)
  conflicts : List String
  hasEvent : Bool
  inReq : List (String × TType)
deriving DecidableEq, Repr

/-- The scope every check starts from (`new Scope()`). -/
def Scope.empty : Scope := ⟨[], [], [], false, []⟩

/-- `Scope.has(name)` (typecheck.js line 65). -/
def Scope.has (s : Scope) (name : String) : Bool := amem s.scope name

/-- `Scope.hasGlobal(name)` (typecheck.js line 69). -/
def Scope.hasGlobal (s : Scope) (name : String) : Bool := amem s.globalScope name

/-- `Scope.getSchema(name)` (typecheck.js line 77). -/
def Scope.getSchema (s : Scope) (name : String) : Option ExprSignature :=
  aget s.globalScope name

/-- `Scope.add(name, type)` (typecheck.js line 83): writes the local map
unconditionally (the conflict check in the source is commented out). -/
def Scope.add (s : Scope) (name : String) (v : SVal) : Scope :=
  { s with scope := aset s.scope name v }

/-- `Scope.addGlobal(name, schema)` (typecheck.js line 90): throws on
redefinition, stores a clone (a value here). -/
def Scope.addGlobal (s : Scope) (name : String) (sig : ExprSignature) :
    Except TCError Scope :=
  if s.hasGlobal name then .error (.conflictOnUsing name)
  else .ok { s with globalScope := aset s.globalScope name sig }

/-- `Scope.popInReq(name, type)` (typecheck.js line 100). -/
def Scope.popInReq (s : Scope) (name : String) (t : TType) : Scope :=
  { s with inReq := aset s.inReq name t }

/-- `Scope.removeInReq(name)` (typecheck.js line 103). -/
def Scope.removeInReq (s : Scope) (name : String) : Scope :=
  { s with inReq := adel s.inReq name }

/-- `Scope.remove(name)` (typecheck.js lines 125-129).  The source runs
`delete this._conflicts[name]` on a `Set`, which is a no-op (property delete,
not `Set.delete`), so the conflict set is left unchanged, faithfully. -/
def Scope.remove (s : Scope) (name : String) : Scope :=
  { s with scope := adel s.scope name }

/-- `Scope.get(name)` (typecheck.js lines 168-172): throws if the name is
conflicted, otherwise `this._globalScope[name] || this._scope[name]` — the
global binding wins over the local one. -/
def Scope.get (s : Scope) (name : String) : Except TCError (Option SVal) :=
  if s.conflicts.contains name then .error (.conflictedFieldName name)
  else .ok (((aget s.globalScope name).map SVal.sch).orElse (fun _ => aget s.scope name))

/-- The body of both loops of `Scope.merge`: `this.add(name, scope.get(name))`
for each listed name of `other`.  `get` can throw (conflicts); for the names
iterated (keys of `other`'s maps) it never returns `undefined`, and the model
skips the unreachable `undefined` case instead of storing it. -/
def Scope.mergeAddFrom (s : Scope) (other : Scope) (names : List String) :
    Except TCError Scope :=
  names.foldlM (fun acc n => do
    let v ← other.get n
    match v with
    | some sv => pure (acc.add n sv)
    | none => pure acc) s

/-- `Scope.merge(scope)` (typecheck.js lines 143-149): both the global and the
local entries of `other` are routed through `add`, i.e. into the local map of
`self`; then `Object.assign(this._inReq, scope._inReq)`. -/
def Scope.merge (s other : Scope) : Except TCError Scope := do
  let s1 ← s.mergeAddFrom other (akeys other.globalScope)
  let s2 ← s1.mergeAddFrom other (akeys other.scope)
  pure { s2 with inReq := aassign s2.inReq other.inReq }

/-! ## Values and typeForValue (typecheck.js lines 212-227) -/

/-- The fragment of `Ast.Value` the settled claims exercise.  The `getType`
method of literals lives in the `Ast` module, not under `src/`; it is
modelled from the spec ("Literal: its declared type"), each literal carrying
its declared type.  `Undefined` has type `Any`. -/
inductive Value where
  | varRef (name : String)
  | event (name : Option String)
  | undef (remote : Bool)
  | numberV (n : Int)
  | stringV (v : String)
  | boolV (b : Bool)
  | dateV
  | measureV (n : Int) (unit : String)
  | entityV (v : String) (kind : String)
deriving DecidableEq, Repr

/-- Modelled from the spec: `Value.getType()` for the fragment above — each
literal's declared type; `$event` is the textual event, a `String`, except
`$event.program_id` which is an entity. -/
def Value.getType : Value → TType
  | .varRef _ => .any
  | .event (some "program_id") => .entity "tt:program_id"
  | .event _ => .string
  | .undef _ => .any
  | .numberV _ => .number
  | .stringV _ => .string
  | .boolV _ => .boolean
  | .dateV => .date
  | .measureV _ u => .measure u
  | .entityV _ k => .entity k

/-- `typeForValue(value, scope)` (typecheck.js lines 212-227): a `VarRef`
whose name starts with `$context.location` is a `Location`; any other
`VarRef` is resolved through `scope.get` (which yields the global schema
when one exists, else the local binding) and missing names throw; `$event`
(other than `program_id`) requires `scope.$has_event`; literals report their
declared type. -/
def typeForValue (v : Value) (scope : Scope) : Except TCError SVal :=
  match v with
  | .varRef name =>
    if name.startsWith "$context.location" then .ok (.ty .location)
    else do
      let t ← scope.get name
      match t with
      | some sv => .ok sv
      | none => .error (.variableNotInScope name)
  | .event name =>
    if ¬ name = some "program_id" ∧ ¬ scope.hasEvent then .error .cannotAccessEvent
    else .ok (.ty (Value.getType (.event name)))
  | other => .ok (.ty other.getType)

/-! ## Schema mutation helpers (typecheck.js lines 369-404, 480-527) -/

/-- The JS idiom `x ? x : dflt` for an optional string (`""` is falsy). -/
def jsOr (o : Option String) (dflt : String) : String :=
  match o with
  | some a => if a = "" then dflt else a
  | none => dflt

/-- `cleanOutput(schema, scope)` (typecheck.js lines 369-381): truncate
`args`/`types` to the input prefix, drop `index` entries at output positions,
remove every output name from the scope, and empty `out`. -/
def cleanOutput (schema : ExprSignature) (scope : Scope) : ExprSignature × Scope :=
  let num_input := (akeys schema.inReq).length + (akeys schema.inOpt).length
  let args := schema.args.take num_input
  let types := schema.types.take num_input
  let index := schema.index.filter (fun p => p.2 < num_input)
  let scope' := (akeys schema.out).foldl (fun sc p => sc.remove p) scope
  ({ schema with args := args, types := types, index := index, out := [] }, scope')

/-- `addOutput(schema, name, type, scope)` (typecheck.js lines 383-389). -/
def addOutput (schema : ExprSignature) (name : String) (t : TType) (scope : Scope) :
    ExprSignature × Scope :=
  ({ schema with
      args := schema.args ++ [name],
      types := schema.types ++ [t],
      index := aset schema.index name schema.index.length,
      out := aset schema.out name t },
   scope.add name (.ty t))

/-- The body of the index-rebuilding reduce of `resolveProjection`:
`res[arg] = i`. -/
def projIndexStep (res : List (String × Nat)) (p : Nat × String) : List (String × Nat) :=
  aset res p.2 p.1

/-- The body of the output-filtering loop of `resolveProjection`: a
non-projected output is deleted from `out` and removed from the scope. -/
def projOutStep (args : List String) (acc : List (String × TType) × Scope) (arg : String) :
    List (String × TType) × Scope :=
  if args.contains arg then acc
  else (adel acc.1 arg, acc.2.remove arg)

/-- `resolveProjection(args, schema, scope)` (typecheck.js lines 480-497):
every projected name must occur in `schema.args` (the first offender throws
`Invalid field name`); `args`/`types`/`index` are reordered to the projection;
outputs not projected are deleted from `out` and removed from the scope.  The
source reads `schema.types[schema.index[arg]]` with the pre-projection
`index`; a name absent from `index` would read `undefined` — the model puts
`Any` there, a case unreachable for well-formed schemas. -/
def resolveProjection (args : List String) (schema : ExprSignature) (scope : Scope) :
    Except TCError (ExprSignature × Scope) :=
  match args.find? (fun a => ! schema.args.contains a) with
  | some a => .error (.invalidFieldName a)
  | none =>
    let types := args.map (fun arg =>
      match aget schema.index arg with
      | some i => schema.types.getD i TType.any
      | none => TType.any)
    let index := args.enum.foldl projIndexStep []
    let os := (akeys schema.out).foldl (projOutStep args) (schema.out, scope)
    .ok ({ schema with args := args, types := types, index := index, out := os.1 }, os.2)

/-- The body of the loop over `rhs.schema.inReq` in `resolveJoin`: a rhs
required input whose name is among the snapshotted lhs inputs deletes the
entry from both merged maps; otherwise it is added to the merged `inReq`. -/
def joinReqStep (in_params : List (String × TType))
    (acc : List (String × TType) × List (String × TType)) (p : String × TType) :
    List (String × TType) × List (String × TType) :=
  if amem in_params p.1 then (adel acc.1 p.1, adel acc.2 p.1)
  else (aset acc.1 p.1 p.2, acc.2)

/-- The body of the loop over `rhs.schema.inOpt` in `resolveJoin`. -/
def joinOptStep (in_params : List (String × TType))
    (acc : List (String × TType) × List (String × TType)) (p : String × TType) :
    List (String × TType) × List (String × TType) :=
  if amem in_params p.1 then (adel acc.1 p.1, adel acc.2 p.1)
  else (acc.1, aset acc.2 p.1 p.2)

/-- The contents `resolveJoin(ast, lhs, rhs)` (typecheck.js lines 499-527)
gives to the join node's schema, as a function of the two children's final
schemas.  Faithful points: the merged `index` is built by
`res[arg] = Object.keys(res).length` over the rhs args starting from the lhs
index; the snapshot `in_params` holds the lhs inputs only; a rhs input whose
name is in that snapshot deletes the entry from *both* merged input maps (the
lhs entry disappears too); `out` is `Object.assign` of the lhs outputs with
the rhs outputs. -/
def resolveJoinSchema (lhs rhs : ExprSignature) : ExprSignature :=
  let args := lhs.args ++ rhs.args
  let types := lhs.types ++ rhs.types
  let index := rhs.args.foldl (fun res arg => aset res arg res.length) lhs.index
  let in_params := aassign (aassign ([] : List (String × TType)) lhs.inReq) lhs.inOpt
  let step1 := rhs.inReq.foldl (joinReqStep in_params) (lhs.inReq, lhs.inOpt)
  let step2 := rhs.inOpt.foldl (joinOptStep in_params) step1
  { args := args, types := types, index := index,
    inReq := step2.1, inOpt := step2.2,
    out := aassign lhs.out rhs.out }

/-! ## Aggregation checking (typecheck.js lines 349-367, 430-445) -/

/-- The fields of an `Aggregation` table node the checker reads and writes. -/
structure AggNode where
  field : String
  operator : String
  aliasName : Option String  -- `ast.alias` (a reserved word in Lean)
  schema : ExprSignature
  overload : Option AggOverload
deriving DecidableEq, Repr

/-- `resolveAggregationOverload(ast, operator, field, schema)` (typecheck.js
lines 349-367), returning the recorded overload and the result type. -/
def resolveAggregationOverload (operator field : String) (schema : ExprSignature) :
    Except TCError (AggOverload × TType) :=
  match aget schema.out field with
  | none => .error (.invalidAggregationField field)
  | some fieldType =>
    match Aggregations operator with
    | none => .error (.invalidAggregation operator)
    | some ag =>
      match aggOverloadWalk fieldType ag with
      | some r => .ok r
      | none => .error (.invalidFieldType fieldType operator)

/-- `typeCheckAggregation(ast, scope)` (typecheck.js lines 430-445): the `*`
field demands the `count` operator and produces `Number` with recorded
overload `[Any, Number]`; otherwise the overload table decides the result
type; either way the schema's outputs are replaced by the single entry named
by the (non-empty) alias, the operator, or `count`. -/
def typeCheckAggregation (ast : AggNode) (scope : Scope) :
    Except TCError (AggNode × Scope) :=
  if ast.field = "*" then
    if ¬ ast.operator = "count" then .error (.starNotValidArgument ast.operator)
    else
      let t := TType.number
      let name := jsOr ast.aliasName "count"
      let (schema1, scope1) := cleanOutput ast.schema scope
      let (schema2, scope2) := addOutput schema1 name t scope1
      .ok ({ ast with schema := schema2, overload := some ⟨.any, t⟩ }, scope2)
  else
    match resolveAggregationOverload ast.operator ast.field ast.schema with
    | .error e => .error e
    | .ok (ov, t) =>
      let name := jsOr ast.aliasName ast.operator
      let (schema1, scope1) := cleanOutput ast.schema scope
      let (schema2, scope2) := addOutput schema1 name t scope1
      .ok ({ ast with schema := schema2, overload := some ov }, scope2)

/-! ## Lemmas about the association-list helpers -/

theorem aget_aset_self {α : Type} (m : List (String × α)) (k : String) (v : α) :
    aget (aset m k v) k = some v := by
  induction m with
  | nil => simp [aset, aget]
  | cons p rest ih =>
    by_cases h : p.1 = k
    · simp [aset, aget, h]
    · simp [aset, aget, h, ih]

theorem aget_aset_ne {α : Type} (m : List (String × α)) (k k' : String) (v : α)
    (h : ¬ k = k') : aget (aset m k v) k' = aget m k' := by
  have h' : ¬ k' = k := fun hh => h hh.symm
  induction m with
  | nil => simp [aset, aget, h]
  | cons p rest ih =>
    by_cases hp : p.1 = k
    · subst hp
      simp [aset, aget, h]
    · by_cases hp' : p.1 = k' <;> simp [aset, aget, hp, hp', h, h', ih]

theorem aget_adel_self {α : Type} (m : List (String × α)) (k : String) :
    aget (adel m k) k = none := by
  induction m with
  | nil => rfl
  | cons p rest ih =>
    by_cases h : p.1 = k
    · simp [adel, h, ih]
    · simp [adel, aget, h, ih]

theorem aget_adel_ne {α : Type} (m : List (String × α)) (k k' : String)
    (h : ¬ k = k') : aget (adel m k) k' = aget m k' := by
  induction m with
  | nil => rfl
  | cons p rest ih =>
    have h' : ¬ k' = k := fun hh => h hh.symm
    by_cases hp : p.1 = k
    · have hp' : ¬ p.1 = k' := by rw [hp]; exact h
      simp [adel, aget, hp, hp', h, ih]
    · by_cases hp' : p.1 = k' <;> simp [adel, aget, hp, hp', h, h', ih]

theorem aget_eq_none_of_not_mem_akeys {α : Type} (m : List (String × α)) (k : String)
    (h : ¬ k ∈ akeys m) : aget m k = none := by
  induction m with
  | nil => rfl
  | cons p rest ih =>
    simp only [akeys, List.map_cons, List.mem_cons] at h
    push_neg at h
    have h1 : ¬ p.1 = k := fun hh => h.1 hh.symm
    simp only [aget, h1, if_false]
    exact ih (by simpa [akeys] using h.2)

theorem mem_akeys_of_aget_isSome {α : Type} (m : List (String × α)) (k : String)
    (h : (aget m k).isSome) : k ∈ akeys m := by
  by_contra hn
  rw [aget_eq_none_of_not_mem_akeys m k hn] at h
  simp at h

theorem amem_iff_mem_akeys {α : Type} (m : List (String × α)) (k : String) :
    amem m k = true ↔ k ∈ akeys m := by
  constructor
  · intro h
    exact mem_akeys_of_aget_isSome m k (by simpa [amem] using h)
  · intro h
    induction m with
    | nil => simp [akeys] at h
    | cons p rest ih =>
      simp only [akeys, List.map_cons, List.mem_cons] at h
      by_cases hp : p.1 = k
      · simp [amem, aget, hp]
      · rcases h with h | h
        · exact absurd h.symm hp
        · simpa [amem, aget, hp] using ih (by simpa [akeys] using h)

/-- Last-match lookup: the value the *last* pair with key `k` holds.  This is
what a sequence of JS assignments leaves behind; it coincides with `aget`
when the keys are unique. -/
def agetLast {α : Type} (m : List (String × α)) (k : String) : Option α :=
  match m with
  | [] => none
  | (k', v) :: rest =>
    match agetLast rest k with
    | some v' => some v'
    | none => if k' = k then some v else none

theorem agetLast_eq_none_of_not_mem_akeys {α : Type} (m : List (String × α)) (k : String)
    (h : ¬ k ∈ akeys m) : agetLast m k = none := by
  induction m with
  | nil => rfl
  | cons p rest ih =>
    simp only [akeys, List.map_cons, List.mem_cons] at h
    push_neg at h
    have h1 : ¬ p.1 = k := fun hh => h.1 hh.symm
    have h2 : agetLast rest k = none := ih (by simpa [akeys] using h.2)
    simp [agetLast, h2, h1]

theorem agetLast_eq_aget_of_nodup {α : Type} (m : List (String × α))
    (h : (akeys m).Nodup) : ∀ k, agetLast m k = aget m k := by
  induction m with
  | nil => intro k; rfl
  | cons p rest ih =>
    intro k
    simp only [akeys, List.map_cons, List.nodup_cons] at h
    by_cases hk : p.1 = k
    · have hnone : agetLast rest k = none :=
        agetLast_eq_none_of_not_mem_akeys rest k (by rw [← hk]; simpa [akeys] using h.1)
      simp [agetLast, hnone, aget, hk]
    · have heq := ih h.2 k
      simp only [agetLast, heq, aget, hk, if_false]
      cases hres : aget rest k <;> simp

theorem agetLast_isSome_of_mem_akeys {α : Type} (m : List (String × α)) (k : String)
    (h : k ∈ akeys m) : (agetLast m k).isSome := by
  induction m with
  | nil => simp [akeys] at h
  | cons p rest ih =>
    simp only [akeys, List.map_cons, List.mem_cons] at h
    cases hres : agetLast rest k with
    | some v => simp [agetLast, hres]
    | none =>
      rcases h with h | h
      · simp [agetLast, hres, h.symm]
      · have := ih (by simpa [akeys] using h)
        rw [hres] at this
        simp at this

theorem aget_aassign {α : Type} (t s : List (String × α)) (k : String) :
    aget (aassign t s) k = (agetLast s k).orElse (fun _ => aget t k) := by
  induction s generalizing t with
  | nil => simp [aassign, agetLast, Option.orElse]
  | cons p rest ih =>
    show aget (aassign (aset t p.1 p.2) rest) k = _
    rw [ih]
    cases hres : agetLast rest k with
    | some v => simp [agetLast, hres, Option.orElse]
    | none =>
      by_cases hk : p.1 = k
      · subst hk
        simp [agetLast, hres, aget_aset_self, Option.orElse]
      · simp [agetLast, hres, hk, aget_aset_ne t p.1 k p.2 hk, Option.orElse]

theorem amem_aassign {α : Type} (t s : List (String × α)) (k : String) :
    amem (aassign t s) k = (amem t k || decide (k ∈ akeys s)) := by
  simp only [amem, aget_aassign]
  cases hres : agetLast s k with
  | some v =>
    have hk : k ∈ akeys s := by
      by_contra hn
      rw [agetLast_eq_none_of_not_mem_akeys s k hn] at hres
      exact Option.noConfusion hres
    simp [Option.orElse, hk]
  | none =>
    have hk : ¬ k ∈ akeys s := by
      intro hmem
      have := agetLast_isSome_of_mem_akeys s k hmem
      rw [hres] at this
      simp at this
    simp [Option.orElse, hk]

/-! ## Characterizations of the checker's loops -/

theorem projOutFold_fst (args names : List String) (m : List (String × TType)) (sc : Scope) :
    (names.foldl (projOutStep args) (m, sc)).1 =
      names.foldl (fun o arg => if args.contains arg then o else adel o arg) m := by
  induction names generalizing m sc with
  | nil => rfl
  | cons n rest ih =>
    by_cases h : n ∈ args
    · simp [List.foldl_cons, projOutStep, h, ih]
    · simp [List.foldl_cons, projOutStep, h, ih]

theorem aget_filterFold (names args : List String) (m : List (String × TType)) (p : String) :
    aget (names.foldl (fun o arg => if args.contains arg then o else adel o arg) m) p =
      if p ∈ names ∧ ¬ args.contains p then none else aget m p := by
  induction names generalizing m with
  | nil => simp
  | cons n rest ih =>
    simp only [List.foldl_cons]
    by_cases hc : n ∈ args
    · rw [if_pos (by simpa using hc), ih]
      by_cases hp : p = n
      · subst hp
        simp [hc]
      · simp [hp]
    · rw [if_neg (by simpa using hc), ih]
      by_cases hp : p = n
      · subst hp
        by_cases hpr : p ∈ rest <;> simp [hpr, hc, aget_adel_self]
      · have hnp : ¬ n = p := fun hh => hp hh.symm
        simp [hp, aget_adel_ne m n p hnp]

theorem projIndexFold_frame (l : List String) :
    ∀ (n : Nat) (acc : List (String × Nat)) (p : String), ¬ p ∈ l →
    aget ((List.enumFrom n l).foldl projIndexStep acc) p = aget acc p := by
  induction l with
  | nil => intro n acc p _; rfl
  | cons x rest ih =>
    intro n acc p h
    simp only [List.enumFrom, List.foldl_cons]
    rw [ih (n+1) _ p (fun hm => h (List.mem_cons_of_mem _ hm))]
    exact aget_aset_ne acc x p n (fun hh => h (hh ▸ List.mem_cons_self _ _))

theorem projIndexFold_get (l : List String) :
    ∀ (n : Nat) (acc : List (String × Nat)), l.Nodup → ∀ i, (hi : i < l.length) →
    aget ((List.enumFrom n l).foldl projIndexStep acc) (l.get ⟨i, hi⟩) = some (n + i) := by
  induction l with
  | nil => intro n acc _ i hi; simp at hi
  | cons x rest ih =>
    intro n acc hnd i hi
    rcases List.nodup_cons.mp hnd with ⟨hx, hrest⟩
    simp only [List.enumFrom, List.foldl_cons]
    cases i with
    | zero =>
      show aget ((List.enumFrom (n+1) rest).foldl projIndexStep (projIndexStep acc (n, x))) x
        = some (n + 0)
      rw [projIndexFold_frame rest (n+1) _ x hx]
      show aget (aset acc x n) x = some (n + 0)
      rw [aget_aset_self]
      norm_num
    | succ j =>
      have hj : j < rest.length := by simpa [Nat.succ_lt_succ_iff] using hi
      show aget ((List.enumFrom (n+1) rest).foldl projIndexStep (projIndexStep acc (n, x)))
        (rest.get ⟨j, hj⟩) = some (n + (j+1))
      rw [ih (n+1) _ hrest j hj]
      congr 1
      omega

theorem joinReqFold_fst (P : List (String × TType)) :
    ∀ (L ir io : List (String × TType)), (akeys L).Nodup → ∀ p,
    aget ((L.foldl (joinReqStep P) (ir, io)).1) p =
      if p ∈ akeys L then (if amem P p then none else aget L p) else aget ir p := by
  intro L
  induction L with
  | nil => intro ir io _ p; simp [akeys]
  | cons q rest ih =>
    intro ir io hn p
    have hn' : q.1 ∉ akeys rest ∧ (akeys rest).Nodup := by
      simpa [akeys, List.nodup_cons] using hn
    simp only [List.foldl_cons]
    by_cases hP : amem P q.1
    · have hstep : joinReqStep P (ir, io) q = (adel ir q.1, adel io q.1) := by
        simp [joinReqStep, hP]
      rw [hstep, ih (adel ir q.1) (adel io q.1) hn'.2 p]
      by_cases hpq : p = q.1
      · subst hpq
        have hmem : q.1 ∈ akeys (q :: rest) := by simp [akeys]
        rw [if_neg hn'.1, aget_adel_self, if_pos hmem, if_pos hP]
      · have hqp : ¬ q.1 = p := fun hh => hpq hh.symm
        rw [aget_adel_ne ir q.1 p hqp]
        have hmq : (p ∈ akeys (q :: rest)) ↔ p ∈ akeys rest := by
          simp [akeys, hpq]
        have hgq : aget (q :: rest) p = aget rest p := by
          simp [aget, hqp]
        by_cases hpr : p ∈ akeys rest
        · rw [if_pos hpr, if_pos (hmq.mpr hpr), hgq]
        · rw [if_neg hpr, if_neg (fun hh => hpr (hmq.mp hh))]
    · have hstep : joinReqStep P (ir, io) q = (aset ir q.1 q.2, io) := by
        simp [joinReqStep, hP]
      rw [hstep, ih (aset ir q.1 q.2) io hn'.2 p]
      by_cases hpq : p = q.1
      · subst hpq
        have hmem : q.1 ∈ akeys (q :: rest) := by simp [akeys]
        rw [if_neg hn'.1, aget_aset_self, if_pos hmem, if_neg hP]
        simp [aget]
      · have hqp : ¬ q.1 = p := fun hh => hpq hh.symm
        rw [aget_aset_ne ir q.1 p q.2 hqp]
        have hmq : (p ∈ akeys (q :: rest)) ↔ p ∈ akeys rest := by
          simp [akeys, hpq]
        have hgq : aget (q :: rest) p = aget rest p := by
          simp [aget, hqp]
        by_cases hpr : p ∈ akeys rest
        · rw [if_pos hpr, if_pos (hmq.mpr hpr), hgq]
        · rw [if_neg hpr, if_neg (fun hh => hpr (hmq.mp hh))]

theorem joinReqFold_snd (P : List (String × TType)) :
    ∀ (L ir io : List (String × TType)), ∀ p,
    aget ((L.foldl (joinReqStep P) (ir, io)).2) p =
      if p ∈ akeys L ∧ amem P p then none else aget io p := by
  intro L
  induction L with
  | nil => intro ir io p; simp [akeys]
  | cons q rest ih =>
    intro ir io p
    simp only [List.foldl_cons]
    by_cases hP : amem P q.1
    · have hstep : joinReqStep P (ir, io) q = (adel ir q.1, adel io q.1) := by
        simp [joinReqStep, hP]
      rw [hstep, ih (adel ir q.1) (adel io q.1) p]
      by_cases hpq : p = q.1
      · subst hpq
        have hmem : q.1 ∈ akeys (q :: rest) := by simp [akeys]
        by_cases hpr : q.1 ∈ akeys rest
        · rw [if_pos (⟨hpr, hP⟩ : q.1 ∈ akeys rest ∧ amem P q.1 = true),
              if_pos ⟨hmem, hP⟩]
        · rw [if_neg (fun hh => hpr hh.1 : ¬ (q.1 ∈ akeys rest ∧ amem P q.1 = true)),
              aget_adel_self, if_pos ⟨hmem, hP⟩]
      · have hqp : ¬ q.1 = p := fun hh => hpq hh.symm
        have hmq : (p ∈ akeys (q :: rest)) ↔ p ∈ akeys rest := by
          simp [akeys, hpq]
        rw [aget_adel_ne io q.1 p hqp]
        by_cases hpr : p ∈ akeys rest ∧ amem P p
        · rw [if_pos hpr, if_pos ⟨hmq.mpr hpr.1, hpr.2⟩]
        · rw [if_neg hpr, if_neg (fun hh => hpr ⟨hmq.mp hh.1, hh.2⟩)]
    · have hstep : joinReqStep P (ir, io) q = (aset ir q.1 q.2, io) := by
        simp [joinReqStep, hP]
      rw [hstep, ih (aset ir q.1 q.2) io p]
      by_cases hpq : p = q.1
      · subst hpq
        simp [hP]
      · have hmq : (p ∈ akeys (q :: rest)) ↔ p ∈ akeys rest := by
          simp [akeys, hpq]
        by_cases hpr : p ∈ akeys rest ∧ amem P p
        · rw [if_pos hpr, if_pos ⟨hmq.mpr hpr.1, hpr.2⟩]
        · rw [if_neg hpr, if_neg (fun hh => hpr ⟨hmq.mp hh.1, hh.2⟩)]

theorem joinOptStep_eq_swap (P : List (String × TType)) (acc : List (String × TType) × List (String × TType)) (q : String × TType) :
    joinOptStep P acc q =
      ((joinReqStep P (acc.2, acc.1) q).2, (joinReqStep P (acc.2, acc.1) q).1) := by
  by_cases h : amem P q.1 <;> simp [joinOptStep, joinReqStep, h]

theorem joinOptFold_eq_swap (P : List (String × TType)) :
    ∀ (L : List (String × TType)) (acc : List (String × TType) × List (String × TType)),
    L.foldl (joinOptStep P) acc =
      ((L.foldl (joinReqStep P) (acc.2, acc.1)).2, (L.foldl (joinReqStep P) (acc.2, acc.1)).1) := by
  intro L
  induction L with
  | nil => intro acc; rfl
  | cons q rest ih =>
    intro acc
    simp only [List.foldl_cons]
    rw [joinOptStep_eq_swap, ih]

/-! ## Characterization of Scope.merge -/

theorem mergeAddFrom_fields (other : Scope) :
    ∀ (names : List String) (s s' : Scope), s.mergeAddFrom other names = .ok s' →
      s'.globalScope = s.globalScope ∧ s'.conflicts = s.conflicts ∧
      s'.hasEvent = s.hasEvent ∧ s'.inReq = s.inReq := by
  intro names
  induction names with
  | nil =>
    intro s s' h
    simp only [Scope.mergeAddFrom, List.foldlM_nil] at h
    cases h
    exact ⟨rfl, rfl, rfl, rfl⟩
  | cons n rest ih =>
    intro s s' h
    simp only [Scope.mergeAddFrom, List.foldlM_cons] at h
    cases hget : other.get n with
    | error e =>
      rw [hget] at h
      simp only [Bind.bind, Except.bind] at h
      exact Except.noConfusion h
    | ok v =>
      rw [hget] at h
      cases v with
      | none =>
        simp only [Bind.bind, Except.bind, pure, Except.pure] at h
        exact ih s s' h
      | some sv =>
        simp only [Bind.bind, Except.bind, pure, Except.pure] at h
        exact ih (s.add n sv) s' h

theorem mergeAddFrom_get_ok (other : Scope) :
    ∀ (names : List String) (s s' : Scope), s.mergeAddFrom other names = .ok s' →
      ∀ p, p ∈ names → ∃ r, other.get p = .ok r := by
  intro names
  induction names with
  | nil => intro s s' _ p hp; simp at hp
  | cons n rest ih =>
    intro s s' h p hp
    simp only [Scope.mergeAddFrom, List.foldlM_cons] at h
    cases hget : other.get n with
    | error e =>
      rw [hget] at h
      simp only [Bind.bind, Except.bind] at h
      exact Except.noConfusion h
    | ok v =>
      rw [hget] at h
      rcases List.mem_cons.mp hp with hpn | hpr
      · exact ⟨v, hpn ▸ hget⟩
      · cases v with
        | none =>
          simp only [Bind.bind, Except.bind, pure, Except.pure] at h
          exact ih s s' h p hpr
        | some sv =>
          simp only [Bind.bind, Except.bind, pure, Except.pure] at h
          exact ih (s.add n sv) s' h p hpr

theorem mergeAddFrom_frame (other : Scope) :
    ∀ (names : List String) (s s' : Scope), s.mergeAddFrom other names = .ok s' →
      ∀ p, ¬ p ∈ names → aget s'.scope p = aget s.scope p := by
  intro names
  induction names with
  | nil =>
    intro s s' h p _
    simp only [Scope.mergeAddFrom, List.foldlM_nil] at h
    cases h
    rfl
  | cons n rest ih =>
    intro s s' h p hp
    simp only [Scope.mergeAddFrom, List.foldlM_cons] at h
    have hpn : ¬ p = n := fun hh => hp (hh ▸ List.mem_cons_self _ _)
    have hpr : ¬ p ∈ rest := fun hh => hp (List.mem_cons_of_mem _ hh)
    cases hget : other.get n with
    | error e =>
      rw [hget] at h
      simp only [Bind.bind, Except.bind] at h
      exact Except.noConfusion h
    | ok v =>
      rw [hget] at h
      cases v with
      | none =>
        simp only [Bind.bind, Except.bind, pure, Except.pure] at h
        exact ih s s' h p hpr
      | some sv =>
        simp only [Bind.bind, Except.bind, pure, Except.pure] at h
        rw [ih (s.add n sv) s' h p hpr]
        exact aget_aset_ne s.scope n p sv (fun hh => hpn hh.symm)

theorem mergeAddFrom_mem (other : Scope) :
    ∀ (names : List String) (s s' : Scope), s.mergeAddFrom other names = .ok s' →
      ∀ p v, p ∈ names → other.get p = .ok (some v) → aget s'.scope p = some v := by
  intro names
  induction names with
  | nil => intro s s' _ p v hp; simp at hp
  | cons n rest ih =>
    intro s s' h p v hp hv
    simp only [Scope.mergeAddFrom, List.foldlM_cons] at h
    cases hget : other.get n with
    | error e =>
      rw [hget] at h
      simp only [Bind.bind, Except.bind] at h
      exact Except.noConfusion h
    | ok w =>
      rw [hget] at h
      by_cases hpn : p = n
      · subst hpn
        rw [hv] at hget
        cases hget
        simp only [Bind.bind, Except.bind, pure, Except.pure] at h
        by_cases hpr : p ∈ rest
        · exact ih (s.add p v) s' h p v hpr hv
        · rw [mergeAddFrom_frame other rest (s.add p v) s' h p hpr]
          exact aget_aset_self s.scope p v
      · have hpr : p ∈ rest := by
          rcases List.mem_cons.mp hp with hh | hh
          · exact absurd hh hpn
          · exact hh
        cases w with
        | none =>
          simp only [Bind.bind, Except.bind, pure, Except.pure] at h
          exact ih s s' h p v hpr hv
        | some sv =>
          simp only [Bind.bind, Except.bind, pure, Except.pure] at h
          exact ih (s.add n sv) s' h p v hpr hv

/-! ## Claim theorems: overload resolution and scope lookup -/

/-- C5: for every entity kind `k` and every right-hand-side type, resolving
the filter operator `=~` with `Entity(k)` on the left fails with the
`InvalidParameterTypes` error — and this is a special rejection, since with
the coerce flag the entity would otherwise be assignable to `String`. -/
theorem C5_substring_on_entity_fails (k : String) (type_rhs : TType) :
    resolveFilterOverload (.entity k) "=~" type_rhs =
      .error (.invalidParameterTypes (.entity k) "=~" type_rhs) ∧
    (isAssignable (.entity k) .string none true).1 = true := by
  constructor
  · simp [resolveFilterOverload, BinaryOps, TType.isEntity]
  · simp [isAssignable]

/-- C8: scalar arithmetic overload resolution maps `-` on `(Date, Date)` to
`Measure(ms)` and `+` on `(Date, Measure(ms))` to `Date`. -/
theorem C8_date_arithmetic :
    resolveScalarExpressionOps .date "-" .date = .ok (.measure "ms") ∧
    resolveScalarExpressionOps .date "+" (.measure "ms") = .ok .date :=
  ⟨rfl, rfl⟩

/-- C10: for a name that is not conflicted, bound both globally and locally,
`Scope.get` returns the global binding (`globalScope[name] || scope[name]`),
so `typeForValue` on a `VarRef` to it yields the global entry, not the local
type. -/
theorem C10_global_shadows_local (sc : Scope) (n : String) (g : ExprSignature) (v : SVal)
    (hc : ¬ n ∈ sc.conflicts)
    (hg : aget sc.globalScope n = some g)
    (hl : aget sc.scope n = some v)
    (hn : ¬ n.startsWith "$context.location" = true) :
    sc.get n = .ok (some (.sch g)) ∧
    typeForValue (.varRef n) sc = .ok (.sch g) := by
  have hget : sc.get n = .ok (some (.sch g)) := by
    simp [Scope.get, hc, hg, Option.orElse]
  refine ⟨hget, ?_⟩
  simp only [typeForValue, hn, if_false]
  rw [hget]
  simp [Bind.bind, Except.bind]

/-- A small concrete signature used by the concrete witnesses below. -/
def sigW : ExprSignature := ⟨["x"], [.number], [("x", 0)], [], [], [("x", .number)]⟩

/-- Witness for C10: a concrete scope with `n` bound to a schema globally and
to `Boolean` locally; `get` and `typeForValue` return the schema. -/
theorem C10_global_shadows_local_witness :
    (Scope.mk [("n", sigW)] [("n", .ty .boolean)] [] false []).get "n" =
      .ok (some (.sch sigW)) ∧
    typeForValue (.varRef "n") (Scope.mk [("n", sigW)] [("n", .ty .boolean)] [] false []) =
      .ok (.sch sigW) :=
  C10_global_shadows_local (Scope.mk [("n", sigW)] [("n", .ty .boolean)] [] false [])
    "n" sigW (.ty .boolean) (by decide) rfl rfl (by decide)

/-! ## Claim C7: Scope.merge -/

/-- The scope used as the merge source in the C7 counterexample: one global
binding, nothing else. -/
def c7other : Scope := ⟨[("g", sigW)], [], [], false, []⟩

/-- C7 counterexample: after `Scope.empty.merge c7other`, the name `g` bound
in `c7other`'s *global* scope is NOT bound in the receiver's global scope
(`hasGlobal "g"` is false), contradicting the claim; `merge` routed it into
the local map instead. -/
theorem C7_merge_globals_cex :
    ∃ s', Scope.empty.merge c7other = .ok s' ∧
      s'.hasGlobal "g" = false ∧ s'.has "g" = true ∧
      aget s'.scope "g" = some (.sch sigW) :=
  ⟨⟨[], [("g", .sch sigW)], [], false, []⟩, rfl, rfl, rfl, rfl⟩

/-- C7 (amended): after a successful `s.merge(other)`, every name bound in
other's global scope is bound in s's *local* scope with the same schema (as
a scope value), and every name bound only in other's local scope is bound in
s's local scope with the same value; s's own global scope is untouched, so
merged globals are not visible through `hasGlobal` unless already present. -/
theorem C7_merge_into_locals (s other s' : Scope) (h : s.merge other = .ok s') :
    s'.globalScope = s.globalScope ∧
    (∀ n g, aget other.globalScope n = some g →
        s'.has n = true ∧ aget s'.scope n = some (.sch g)) ∧
    (∀ n v, aget other.scope n = some v → aget other.globalScope n = none →
        aget s'.scope n = some v) := by
  unfold Scope.merge at h
  cases h1 : s.mergeAddFrom other (akeys other.globalScope) with
  | error e =>
    rw [h1] at h
    simp only [Bind.bind, Except.bind] at h
    exact Except.noConfusion h
  | ok s1 =>
    rw [h1] at h
    simp only [Bind.bind, Except.bind] at h
    cases h2 : s1.mergeAddFrom other (akeys other.scope) with
    | error e =>
      rw [h2] at h
      exact Except.noConfusion h
    | ok s2 =>
      rw [h2] at h
      simp only [pure, Except.pure, Except.ok.injEq] at h
      subst h
      have hf1 := mergeAddFrom_fields other (akeys other.globalScope) s s1 h1
      have hf2 := mergeAddFrom_fields other (akeys other.scope) s1 s2 h2
      refine ⟨by rw [hf2.1, hf1.1], ?_, ?_⟩
      · intro n g hg
        have hmem : n ∈ akeys other.globalScope :=
          mem_akeys_of_aget_isSome other.globalScope n (by simp [hg])
        obtain ⟨r, hr⟩ := mergeAddFrom_get_ok other (akeys other.globalScope) s s1 h1 n hmem
        have hncf : ¬ other.conflicts.contains n = true := by
          intro hcf
          rw [Scope.get, if_pos hcf] at hr
          exact Except.noConfusion hr
        have hget : other.get n = .ok (some (.sch g)) := by
          rw [Scope.get, if_neg hncf, hg]
          rfl
        have hval : aget s2.scope n = some (.sch g) := by
          by_cases hms : n ∈ akeys other.scope
          · exact mergeAddFrom_mem other (akeys other.scope) s1 s2 h2 n (.sch g) hms hget
          · rw [mergeAddFrom_frame other (akeys other.scope) s1 s2 h2 n hms]
            exact mergeAddFrom_mem other (akeys other.globalScope) s s1 h1 n (.sch g)
              hmem hget
        exact ⟨by simp [Scope.has, amem, hval], hval⟩
      · intro n v hv hgn
        have hmem : n ∈ akeys other.scope :=
          mem_akeys_of_aget_isSome other.scope n (by simp [hv])
        obtain ⟨r, hr⟩ := mergeAddFrom_get_ok other (akeys other.scope) s1 s2 h2 n hmem
        have hncf : ¬ other.conflicts.contains n = true := by
          intro hcf
          rw [Scope.get, if_pos hcf] at hr
          exact Except.noConfusion hr
        have hget : other.get n = .ok (some v) := by
          rw [Scope.get, if_neg hncf, hgn, hv]
          rfl
        exact mergeAddFrom_mem other (akeys other.scope) s1 s2 h2 n v hmem hget

/-- Witness for C7 (amended) at the concrete scopes of the counterexample. -/
theorem C7_merge_into_locals_witness :
    (⟨[], [("g", SVal.sch sigW)], [], false, []⟩ : Scope).globalScope =
      Scope.empty.globalScope ∧
    (∀ n g, aget c7other.globalScope n = some g →
        (⟨[], [("g", SVal.sch sigW)], [], false, []⟩ : Scope).has n = true ∧
        aget (⟨[], [("g", SVal.sch sigW)], [], false, []⟩ : Scope).scope n =
          some (.sch g)) ∧
    (∀ n v, aget c7other.scope n = some v → aget c7other.globalScope n = none →
        aget (⟨[], [("g", SVal.sch sigW)], [], false, []⟩ : Scope).scope n = some v) :=
  C7_merge_into_locals Scope.empty c7other ⟨[], [("g", SVal.sch sigW)], [], false, []⟩ rfl

/-! ## Claim C3: aggregation -/

/-- C3: whenever `typeCheckAggregation` succeeds, the node's schema has
exactly one output, keyed by the (non-empty) alias, else by the operator
name, else (for `count(*)`) by `count`; and when the field is `*` the
operator must have been `count` and the single output has type `Number`
regardless of the inner outputs.  (The contrapositive of the last conjunct is
the claim's "otherwise the check fails".) -/
theorem C3_aggregation_single_output (ast : AggNode) (scope : Scope)
    (ast' : AggNode) (scope' : Scope)
    (h : typeCheckAggregation ast scope = .ok (ast', scope')) :
    ∃ t, ast'.schema.out =
        [(jsOr ast.aliasName (if ast.field = "*" then "count" else ast.operator), t)] ∧
      (ast.field = "*" → ast.operator = "count" ∧ t = .number) := by
  unfold typeCheckAggregation at h
  by_cases hf : ast.field = "*"
  · rw [if_pos hf] at h
    by_cases hop : ast.operator = "count"
    · rw [if_neg (not_not_intro hop)] at h
      simp only [Except.ok.injEq, Prod.mk.injEq] at h
      obtain ⟨h1, h2⟩ := h
      refine ⟨.number, ?_, fun _ => ⟨hop, rfl⟩⟩
      rw [← h1, if_pos hf]
      simp [addOutput, cleanOutput, aset]
    · rw [if_pos hop] at h
      exact Except.noConfusion h
  · rw [if_neg hf] at h
    cases hr : resolveAggregationOverload ast.operator ast.field ast.schema with
    | error e =>
      rw [hr] at h
      exact Except.noConfusion h
    | ok pr =>
      obtain ⟨ov, t⟩ := pr
      rw [hr] at h
      simp only [Except.ok.injEq, Prod.mk.injEq] at h
      obtain ⟨h1, h2⟩ := h
      refine ⟨t, ?_, fun hff => absurd hff hf⟩
      rw [← h1, if_neg hf]
      simp [addOutput, cleanOutput, aset]

/-- The inner schema used by the concrete aggregation witness: one output. -/
def c3sig : ExprSignature := ⟨["q"], [.string], [("q", 0)], [], [], [("q", .string)]⟩

/-- The `count(*)` aggregation node over `c3sig`. -/
def c3ast : AggNode := ⟨"*", "count", none, c3sig, none⟩

/-- The checked result of the witness aggregation. -/
def c3res : AggNode × Scope :=
  (typeCheckAggregation c3ast Scope.empty).toOption.getD (c3ast, Scope.empty)

/-- Witness for C3: `count(*)` over a table with one `String` output yields
the single output `count : Number`. -/
theorem C3_aggregation_single_output_witness :
    ∃ t, c3res.1.schema.out =
        [(jsOr c3ast.aliasName (if c3ast.field = "*" then "count" else c3ast.operator), t)] ∧
      (c3ast.field = "*" → c3ast.operator = "count" ∧ t = .number) :=
  C3_aggregation_single_output c3ast Scope.empty c3res.1 c3res.2 rfl

/-! ## Claim C4: projection -/

/-- The inner schema of the C4 counterexample: one required input `a` and one
output `b`. -/
def c4sig : ExprSignature :=
  ⟨["a", "b"], [.number, .string], [("a", 0), ("b", 1)],
   [("a", .number)], [], [("b", .string)]⟩

/-- C4 counterexample: projecting the *input* name `a` succeeds (names are
validated against `schema.args`, which includes inputs), but the resulting
`out` is empty — its key set is NOT the projection list `["a"]` as the claim
demands.  Only projected names that were outputs survive in `out`. -/
theorem C4_projection_cex :
    ∃ r, resolveProjection ["a"] c4sig Scope.empty = .ok r ∧
      r.1.args = ["a"] ∧ ¬ akeys r.1.out = ["a"] := by
  refine ⟨(⟨["a"], [.number], [("a", 0)], [("a", .number)], [], []⟩, Scope.empty),
    rfl, rfl, by decide⟩

/-- C4 (amended): validation fails with `Invalid field name` on the first
projected name not in `schema.args`; otherwise the projection succeeds,
`args` becomes exactly the projection list, `index` maps each projected name
to its position, and `out` keeps exactly those projected names that were
outputs of the inner schema (a projected input does not reappear in `out`). -/
theorem C4_projection_amended (args : List String) (schema : ExprSignature) (scope : Scope) :
    (∀ a, args.find? (fun a => ! schema.args.contains a) = some a →
        resolveProjection args schema scope = .error (.invalidFieldName a)) ∧
    ((∀ a ∈ args, schema.args.contains a) →
      ∃ r, resolveProjection args schema scope = .ok r ∧
        r.1.args = args ∧
        (args.Nodup → ∀ i, (hi : i < args.length) →
          aget r.1.index (args.get ⟨i, hi⟩) = some i) ∧
        (∀ p, aget r.1.out p =
          if args.contains p then aget schema.out p else none)) := by
  constructor
  · intro a ha
    unfold resolveProjection
    rw [ha]
  · intro hall
    have hfind : args.find? (fun a => ! schema.args.contains a) = none := by
      rw [List.find?_eq_none]
      intro a ha
      simpa using hall a ha
    refine ⟨_, by unfold resolveProjection; rw [hfind], rfl, ?_, ?_⟩
    · intro hnd i hi
      have := projIndexFold_get args 0 [] hnd i hi
      simpa using this
    · intro p
      show aget ((akeys schema.out).foldl (projOutStep args) (schema.out, scope)).1 p = _
      rw [projOutFold_fst, aget_filterFold]
      by_cases hc : p ∈ args
      · simp [hc]
      · by_cases hmem : p ∈ akeys schema.out
        · rw [if_pos ⟨hmem, by simp [hc]⟩, if_neg (by simp [hc])]
        · rw [if_neg (fun hh => hmem hh.1), if_neg (by simp [hc])]
          exact aget_eq_none_of_not_mem_akeys schema.out p hmem

/-- Witness for C4 (amended), applied at the concrete projection of the
counterexample (all names valid) and at a name that is not valid. -/
theorem C4_projection_amended_witness :
    (∃ r, resolveProjection ["a"] c4sig Scope.empty = .ok r ∧
        r.1.args = ["a"] ∧
        ((["a"] : List String).Nodup → ∀ i, (hi : i < (["a"] : List String).length) →
          aget r.1.index ((["a"] : List String).get ⟨i, hi⟩) = some i) ∧
        (∀ p, aget r.1.out p =
          if (["a"] : List String).contains p then aget c4sig.out p else none)) ∧
    resolveProjection ["z"] c4sig Scope.empty = .error (.invalidFieldName "z") :=
  ⟨(C4_projection_amended ["a"] c4sig Scope.empty).2 (by decide),
   (C4_projection_amended ["z"] c4sig Scope.empty).1 "z" (by decide)⟩

/-! ## Claim C1: join schema -/

/-- The left schema of the C1 counterexample: a single required input `x`. -/
def c1lhs : ExprSignature := ⟨["x"], [.number], [("x", 0)], [("x", .number)], [], []⟩

/-- The right schema of the C1 counterexample: a required input also named
`x`. -/
def c1rhs : ExprSignature := ⟨["x"], [.string], [("x", 0)], [("x", .string)], [], []⟩

/-- C1 counterexample: `x` is a required input of the LEFT schema, yet after
the join the merged `inReq`/`inOpt` are empty — the collision with the rhs
input of the same name deleted the lhs entry too.  The claim predicted the
left inputs to survive ("the left inputs plus exactly those right inputs
whose names do not already appear among the left inputs"). -/
theorem C1_join_inputs_cex :
    aget c1lhs.inReq "x" = some .number ∧
    (resolveJoinSchema c1lhs c1rhs).inReq = [] ∧
    (resolveJoinSchema c1lhs c1rhs).inOpt = [] :=
  ⟨rfl, rfl, rfl⟩

/-- C1 (amended): for every join, `args` and `types` are the concatenations,
`out` is the union of the two output maps (rhs winning a shared name), and
the merged `inReq`/`inOpt` hold the left inputs plus the right inputs minus
every name that is an input on BOTH sides — a colliding name is dropped from
both maps, not merely skipped on the right.  Hypotheses: the rhs input maps
are well-formed JS objects (unique keys, `inReq`/`inOpt` disjoint). -/
theorem C1_join_schema_amended (lhs rhs : ExprSignature)
    (hreq : (akeys rhs.inReq).Nodup) (hopt : (akeys rhs.inOpt).Nodup)
    (hdisj : ∀ p ∈ akeys rhs.inReq, ¬ p ∈ akeys rhs.inOpt)
    (hout : (akeys rhs.out).Nodup) :
    (resolveJoinSchema lhs rhs).args = lhs.args ++ rhs.args ∧
    (resolveJoinSchema lhs rhs).types = lhs.types ++ rhs.types ∧
    (∀ p, aget (resolveJoinSchema lhs rhs).out p =
        ((aget rhs.out p).orElse (fun _ => aget lhs.out p))) ∧
    (∀ p,
      aget (resolveJoinSchema lhs rhs).inReq p =
        (if p ∈ akeys rhs.inReq ∨ p ∈ akeys rhs.inOpt then
           (if p ∈ akeys lhs.inReq ∨ p ∈ akeys lhs.inOpt then none
            else aget rhs.inReq p)
         else aget lhs.inReq p) ∧
      aget (resolveJoinSchema lhs rhs).inOpt p =
        (if p ∈ akeys rhs.inReq ∨ p ∈ akeys rhs.inOpt then
           (if p ∈ akeys lhs.inReq ∨ p ∈ akeys lhs.inOpt then none
            else aget rhs.inOpt p)
         else aget lhs.inOpt p)) := by
  have hP : ∀ p, amem (aassign (aassign ([] : List (String × TType)) lhs.inReq) lhs.inOpt) p
      = true ↔ (p ∈ akeys lhs.inReq ∨ p ∈ akeys lhs.inOpt) := by
    intro p
    rw [amem_aassign, amem_aassign]
    simp [amem, aget]
  refine ⟨rfl, rfl, ?_, ?_⟩
  · intro p
    show aget (aassign lhs.out rhs.out) p = _
    rw [aget_aassign, agetLast_eq_aget_of_nodup rhs.out hout]
  · intro p
    set P := aassign (aassign ([] : List (String × TType)) lhs.inReq) lhs.inOpt with hPdef
    have hfold1 :
        (resolveJoinSchema lhs rhs).inReq =
          ((rhs.inOpt.foldl (joinReqStep P)
            ((rhs.inReq.foldl (joinReqStep P) (lhs.inReq, lhs.inOpt)).2,
             (rhs.inReq.foldl (joinReqStep P) (lhs.inReq, lhs.inOpt)).1)).2) := by
      show ((rhs.inOpt.foldl (joinOptStep P)
        (rhs.inReq.foldl (joinReqStep P) (lhs.inReq, lhs.inOpt))).1) = _
      rw [joinOptFold_eq_swap]
    have hfold2 :
        (resolveJoinSchema lhs rhs).inOpt =
          ((rhs.inOpt.foldl (joinReqStep P)
            ((rhs.inReq.foldl (joinReqStep P) (lhs.inReq, lhs.inOpt)).2,
             (rhs.inReq.foldl (joinReqStep P) (lhs.inReq, lhs.inOpt)).1)).1) := by
      show ((rhs.inOpt.foldl (joinOptStep P)
        (rhs.inReq.foldl (joinReqStep P) (lhs.inReq, lhs.inOpt))).2) = _
      rw [joinOptFold_eq_swap]
    constructor
    · rw [hfold1,
        joinReqFold_snd P rhs.inOpt _ _ p,
        joinReqFold_fst P rhs.inReq lhs.inReq lhs.inOpt hreq p]
      by_cases hro : p ∈ akeys rhs.inOpt
      · have hrr : ¬ p ∈ akeys rhs.inReq := fun hh => hdisj p hh hro
        by_cases hl : p ∈ akeys lhs.inReq ∨ p ∈ akeys lhs.inOpt
        · rw [if_pos ⟨hro, (hP p).mpr hl⟩, if_pos (Or.inr hro), if_pos hl]
        · rw [if_neg (fun hh => hl ((hP p).mp hh.2)), if_neg hrr,
            if_pos (Or.inr hro), if_neg hl]
          have h1 : aget lhs.inReq p = none := by
            by_cases hm : p ∈ akeys lhs.inReq
            · exact absurd (Or.inl hm) hl
            · exact aget_eq_none_of_not_mem_akeys lhs.inReq p hm
          have h2 : aget rhs.inReq p = none :=
            aget_eq_none_of_not_mem_akeys rhs.inReq p hrr
          rw [h1, h2]
      · by_cases hrr : p ∈ akeys rhs.inReq
        · by_cases hl : p ∈ akeys lhs.inReq ∨ p ∈ akeys lhs.inOpt
          · rw [if_neg (fun hh => hro hh.1), if_pos hrr, if_pos ((hP p).mpr hl),
              if_pos (Or.inl hrr), if_pos hl]
          · rw [if_neg (fun hh => hro hh.1), if_pos hrr,
              if_neg (fun hh => hl ((hP p).mp hh)),
              if_pos (Or.inl hrr), if_neg hl]
        · rw [if_neg (fun hh => hro hh.1), if_neg hrr,
            if_neg (fun hh => hh.elim (fun h => hrr h) (fun h => hro h))]
    · rw [hfold2,
        joinReqFold_fst P rhs.inOpt _ _ hopt p,
        joinReqFold_snd P rhs.inReq lhs.inReq lhs.inOpt p]
      by_cases hro : p ∈ akeys rhs.inOpt
      · by_cases hl : p ∈ akeys lhs.inReq ∨ p ∈ akeys lhs.inOpt
        · rw [if_pos hro, if_pos ((hP p).mpr hl), if_pos (Or.inr hro), if_pos hl]
        · rw [if_pos hro, if_neg (fun hh => hl ((hP p).mp hh)),
            if_pos (Or.inr hro), if_neg hl]
      · by_cases hrr : p ∈ akeys rhs.inReq
        · have hro' : ¬ p ∈ akeys rhs.inOpt := hro
          by_cases hl : p ∈ akeys lhs.inReq ∨ p ∈ akeys lhs.inOpt
          · rw [if_neg hro, if_pos ⟨hrr, (hP p).mpr hl⟩, if_pos (Or.inl hrr), if_pos hl]
          · rw [if_neg hro, if_neg (fun hh => hl ((hP p).mp hh.2)),
              if_pos (Or.inl hrr), if_neg hl]
            have h1 : aget lhs.inOpt p = none := by
              by_cases hm : p ∈ akeys lhs.inOpt
              · exact absurd (Or.inr hm) hl
              · exact aget_eq_none_of_not_mem_akeys lhs.inOpt p hm
            have h2 : aget rhs.inOpt p = none :=
              aget_eq_none_of_not_mem_akeys rhs.inOpt p hro
            rw [h1, h2]
        · rw [if_neg hro, if_neg (fun hh => hrr hh.1),
            if_neg (fun hh => hh.elim (fun h => hrr h) (fun h => hro h))]

/-- Witness for C1 (amended), instantiated at the concrete schemas of the
counterexample and at the colliding name `x`: both merged input maps lose
the entry. -/
theorem C1_join_schema_amended_witness :
    (resolveJoinSchema c1lhs c1rhs).args = c1lhs.args ++ c1rhs.args ∧
    aget (resolveJoinSchema c1lhs c1rhs).inReq "x" =
      (if "x" ∈ akeys c1rhs.inReq ∨ "x" ∈ akeys c1rhs.inOpt then
         (if "x" ∈ akeys c1lhs.inReq ∨ "x" ∈ akeys c1lhs.inOpt then none
          else aget c1rhs.inReq "x")
       else aget c1lhs.inReq "x") :=
  ⟨(C1_join_schema_amended c1lhs c1rhs (by decide) (by decide) (by decide) (by decide)).1,
   ((C1_join_schema_amended c1lhs c1rhs (by decide) (by decide) (by decide)
      (by decide)).2.2.2 "x").1⟩

/-! ## A heap model for object identity and in-place mutation

The remaining claims are about *sharing* of schema objects (freshness of
clones) and about mutation that persists across checker runs.  Those are
properties of JS object identity, so this part of the embedding gives schema
objects and their `index` components explicit heap cells.  Only the `index`
component needs its own cell: it is the one component `resolveJoin` reaches
through a reference it does not own (the reduce that builds the merged index
uses `lhs.schema.index` as its accumulator and the join schema then aliases
it); all other components are written only through the owning schema object
and are modelled by value.

The fragment covers exactly the AST shapes the claims need: a `Timer` stream,
an `Invocation` table, their join (`typeCheckStream`, `isJoin` case), builtin
actions, and the rule/program drivers. -/

/-- The contents of a JS `index` object. -/
abbrev IndexMap := List (String × Nat)

/-- A schema object on the heap; `idxRef` points into the index heap. -/
structure SchemaObj where
  args : List String
  types : List TType
  idxRef : Nat
  inReq : List (String × TType)
  inOpt : List (String × TType)
  out : List (String × TType)
deriving DecidableEq, Repr

/-- The all-empty schema object (also the default for out-of-range reads,
which never happen on the runs proved about). -/
def emptySchemaObj : SchemaObj := ⟨[], [], 0, [], [], []⟩

/-- The store: schema objects and index objects, addressed by position. -/
structure Store where
  sheap : List SchemaObj
  iheap : List IndexMap
deriving DecidableEq, Repr

def Store.getS (st : Store) (r : Nat) : SchemaObj := st.sheap.getD r emptySchemaObj

def Store.getI (st : Store) (r : Nat) : IndexMap := st.iheap.getD r []

def Store.setS (st : Store) (r : Nat) (o : SchemaObj) : Store :=
  { st with sheap := st.sheap.set r o }

def Store.setI (st : Store) (r : Nat) (m : IndexMap) : Store :=
  { st with iheap := st.iheap.set r m }

def Store.allocS (st : Store) (o : SchemaObj) : Store × Nat :=
  ({ st with sheap := st.sheap ++ [o] }, st.sheap.length)

def Store.allocI (st : Store) (m : IndexMap) : Store × Nat :=
  ({ st with iheap := st.iheap ++ [m] }, st.iheap.length)

/-- Modelled from the spec: `schema.clone()` (the schema model's "cloning
helper", not under `src/`): fresh copies of all components — a new schema
cell whose `index` is a new index cell with copied contents. -/
def cloneSchema (st : Store) (r : Nat) : Store × Nat :=
  let o := st.getS r
  let (st1, ir) := st.allocI (st.getI o.idxRef)
  Store.allocS st1 { o with idxRef := ir }

/-- Heap address of the shared `Builtin.emptyFunction` signature. -/
def builtinRef : Nat := 0

/-- Heap address of the builtin `notify` action signature. -/
def notifyRef : Nat := 1

/-- Heap address of the builtin `return` action signature. -/
def returnRef : Nat := 2

/-- Heap address of the builtin `save` action signature. -/
def saveRef : Nat := 3

/-- Heap address of the (single) Thingpedia query signature the schema
oracle returns in this fragment. -/
def oracleRef : Nat := 4

/-- Heap address of the (single) Thingpedia action signature the schema
oracle returns in this fragment. -/
def actionOracleRef : Nat := 5

/-- The initial store: the shared builtin signatures (modelled from the
spec: `notify`/`return`/`save` have no inputs and no outputs, `Timer`
streams get the empty schema) and the schema-oracle results, one query
signature (parameterized) and one parameterless action signature. -/
def initStore (oracle : SchemaObj) (oidx : IndexMap) : Store :=
  ⟨[{ emptySchemaObj with idxRef := 0 },
    { emptySchemaObj with idxRef := 1 },
    { emptySchemaObj with idxRef := 2 },
    { emptySchemaObj with idxRef := 3 },
    { oracle with idxRef := 4 },
    { emptySchemaObj with idxRef := 5 }],
   [[], [], [], [], oidx, []]⟩

/-! ### Fragment AST -/

/-- An `Invocation` primitive: `@kind.channel(in_params)`.  `schemaRef` is
the `schema` property (null before checking). -/
structure InvNode where
  schemaRef : Option Nat
  in_params : List (String × Value)
deriving DecidableEq, Repr

/-- A `Table.Invocation` node wrapping a primitive. -/
structure InvTableNode where
  invocation : InvNode
  schemaRef : Option Nat
deriving DecidableEq, Repr

/-- A `Stream.Timer` node. -/
structure TimerNode where
  schemaRef : Option Nat
deriving DecidableEq, Repr

/-- An action in the fragment: a builtin (or oracle-resolved) channel with
input parameters. -/
structure ActionNode where
  builtinSel : Bool
  channel : String
  schemaRef : Option Nat
  in_params : List (String × Value)
deriving DecidableEq, Repr

/-- The stream fragment: a timer, an at-timer (the source treats the two
identically: `ast.isTimer || ast.isAtTimer`), or `timer join @x.y()` (a
stream-table join whose lhs is a timer). -/
inductive StreamNode where
  | timer (t : TimerNode)
  | atimer (t : TimerNode)
  | sjoin (stream : TimerNode) (table : InvTableNode)
      (in_params : List (String × Value)) (schemaRef : Option Nat)
deriving DecidableEq, Repr

/-- A rule: an optional stream or table, and its actions. -/
structure RuleNode where
  stream : Option StreamNode
  table : Option InvTableNode
  actions : List ActionNode
deriving DecidableEq, Repr

/-! ### Fragment checker (typecheck.js, the cases these ASTs reach) -/

/-- `ensureSchema(prim, 'query')` for the fragment's invocation: if a schema
is already attached, return; otherwise attach the object the oracle returns
— the *shared* signature at `oracleRef`, no clone (typecheck.js lines
182-210: `prim.schema = schema`). -/
def ensureSchemaQuery (prim : InvNode) : InvNode :=
  if prim.schemaRef.isSome then prim
  else { prim with schemaRef := some oracleRef }

/-- `ensureSchema(prim, 'action')` for an action (typecheck.js lines
193-205): a builtin selector dispatches on the channel to the fixed
`notify`/`return`/`save` signatures and rejects other channels; a
non-builtin selector resolves through the oracle. -/
def ensureSchemaAction (a : ActionNode) : Except TCError ActionNode :=
  if a.schemaRef.isSome then .ok a
  else if a.builtinSel then
    if a.channel = "notify" then .ok { a with schemaRef := some notifyRef }
    else if a.channel = "return" then .ok { a with schemaRef := some returnRef }
    else if a.channel = "save" then .ok { a with schemaRef := some saveRef }
    else .error (.invalidBuiltinAction a.channel)
  else .ok { a with schemaRef := some actionOracleRef }

/-- The coercion in `typeCheckInputArgs` (typecheck.js lines 544-546): a
`tt:username` entity passed to a `tt:phone_number`/`tt:email_address` slot
is retagged `tt:contact_name` in place. -/
def coerceUsername (v : Value) (slot : TType) : Value :=
  match v, slot with
  | .entityV x "tt:username", .entity k =>
    if k = "tt:phone_number" ∨ k = "tt:email_address" then .entityV x "tt:contact_name"
    else .entityV x "tt:username"
  | other, _ => other

/-- The per-parameter body of `typeCheckInputArgs` (typecheck.js lines
540-554): locate the slot, coerce, check assignability (with coercion), and
reject duplicates.  The accumulator carries the names already seen and the
(possibly retagged) parameter list.  A scope value that is a whole schema is
not a type the parameter could take and is rejected like an ill-typed value. -/
def inputParamStep (schema : SchemaObj) (sc : Scope)
    (acc : List String × List (String × Value)) (ip : String × Value) :
    Except TCError (List String × List (String × Value)) := do
  match (aget schema.inReq ip.1).orElse (fun _ => aget schema.inOpt ip.1) with
  | none => .error (.invalidInputParameter ip.1)
  | some slotTy =>
    let v := coerceUsername ip.2 slotTy
    let tv ← typeForValue v sc
    match tv with
    | .sch _ => .error (.invalidTypeForParameter ip.1)
    | .ty ty =>
      if ¬ (isAssignable ty slotTy none true).1 then .error (.invalidTypeForParameter ip.1)
      else if acc.1.contains ip.1 then .error (.duplicateInputParam ip.1)
      else .ok (acc.1 ++ [ip.1], acc.2 ++ [(ip.1, v)])

/-- `typeCheckInputArgs(ast, scope)` (typecheck.js lines 529-559) for the
fragment (`isDeclaration = false`, so no `pushInReq`): check every supplied
parameter, then push every required input not supplied here into
`scope._inReq`. -/
def typeCheckInputArgsFrag (st : Store) (sref : Option Nat)
    (in_params : List (String × Value)) (sc : Scope) :
    Except TCError (List (String × Value) × Scope) := do
  let schema := st.getS (sref.getD 0)
  let acc ← in_params.foldlM (inputParamStep schema sc) ([], [])
  let sc1 := schema.inReq.foldl
    (fun (s : Scope) p => if acc.1.contains p.1 then s else s.popInReq p.1 p.2) sc
  .ok (acc.2, sc1)

/-- `scope.assign(schema.out)` for the fragment: every output is a plain
type (never a table/stream/function-def), so each goes to the local map. -/
def Scope.assignTypes (sc : Scope) (m : List (String × TType)) : Scope :=
  m.foldl (fun acc p => acc.add p.1 (.ty p.2)) sc

/-- The tail of `typeCheckInput` (typecheck.js lines 561-571) for an
invocation with no filter and no aggregation: check the input arguments
against the invocation's own (shared) schema, then publish its outputs. -/
def typeCheckInputFrag (st : Store) (sc : Scope) (inv : InvNode) :
    Except TCError (InvNode × Scope) := do
  let (ips, sc1) ← typeCheckInputArgsFrag st inv.schemaRef inv.in_params sc
  let sc2 := Scope.assignTypes sc1 (st.getS (inv.schemaRef.getD 0)).out
  .ok ({ inv with in_params := ips }, sc2)

/-- `typeCheckTable`, `isInvocation` case (typecheck.js lines 601-607):
resolve the invocation's schema, set the table's schema to a clone of it,
and run the input check on the invocation. -/
def checkInvTable (st : Store) (sc : Scope) (t : InvTableNode) :
    Except TCError (Store × Scope × InvTableNode) := do
  let inv := ensureSchemaQuery t.invocation
  let (st1, r) := cloneSchema st (inv.schemaRef.getD 0)
  let (inv2, sc1) ← typeCheckInputFrag st1 sc inv
  .ok (st1, sc1, { invocation := inv2, schemaRef := some r })

/-- `resolveJoin(ast, lhs, rhs)` (typecheck.js lines 499-527) on the store:
the join schema is a clone of the lhs schema; `args`/`types`/`inReq`/
`inOpt`/`out` are computed as in the pure model; the merged `index` is
built by mutating the *lhs schema's own index object* (the reduce's
accumulator is `lhs.schema.index`), which the join schema then aliases. -/
def resolveJoinStore (st : Store) (lhsRef rhsRef : Nat) : Store × Nat :=
  let lhsObj := st.getS lhsRef
  let rhsObj := st.getS rhsRef
  let (st1, jref) := cloneSchema st lhsRef
  let lhsIdx := st1.getI lhsObj.idxRef
  let newIdx := rhsObj.args.foldl (fun res arg => aset res arg res.length) lhsIdx
  let st2 := st1.setI lhsObj.idxRef newIdx
  let in_params := aassign (aassign ([] : List (String × TType)) lhsObj.inReq) lhsObj.inOpt
  let step1 := rhsObj.inReq.foldl (joinReqStep in_params) (lhsObj.inReq, lhsObj.inOpt)
  let step2 := rhsObj.inOpt.foldl (joinOptStep in_params) step1
  let jobj : SchemaObj :=
    { args := lhsObj.args ++ rhsObj.args,
      types := lhsObj.types ++ rhsObj.types,
      idxRef := lhsObj.idxRef,
      inReq := step2.1, inOpt := step2.2,
      out := aassign lhsObj.out rhsObj.out }
  (st2.setS jref jobj, jref)

/-- `typeCheckJoinInput` (typecheck.js lines 580-588) for a join with no
filter and no aggregation: the join's input parameters against the joined
schema, then publish the joined outputs. -/
def typeCheckJoinInputFrag (st : Store) (jref : Nat)
    (ips : List (String × Value)) (sc : Scope) :
    Except TCError (List (String × Value) × Scope) := do
  let (ips2, sc1) ← typeCheckInputArgsFrag st (some jref) ips sc
  let sc2 := Scope.assignTypes sc1 (st.getS jref).out
  .ok (ips2, sc2)

/-- The parameter-passing removal loop of the join cases (typecheck.js
lines 657-658, 768-769): `rightscope.removeInReq(inParam.name, ...)`; the
second argument `leftscope.get(inParam.value.name)` is evaluated (and can
throw on a conflicted name) but otherwise unused. -/
def removeSuppliedInReq (leftscope : Scope) (rsc : Scope)
    (ips : List (String × Value)) : Except TCError Scope :=
  ips.foldlM (fun acc ip => do
    match ip.2 with
    | .varRef vn =>
      let _ ← leftscope.get vn
      .ok (acc.removeInReq ip.1)
    | _ => .ok (acc.removeInReq ip.1)) rsc

/-- `typeCheckStream` (typecheck.js lines 701-777) for the fragment's two
stream shapes.  `isTimer`: the node's schema becomes the *shared*
`Builtin.emptyFunction` (no clone).  `isJoin`: two scopes are cloned from
the caller's; the timer lhs and the table rhs are checked; `resolveJoin`
runs; the lhs scope gains `$has_event`; supplied rhs requireds are removed;
the join input check runs against the left scope; finally both child scopes
are merged back. -/
def checkStream (st : Store) (sc : Scope) (s : StreamNode) :
    Except TCError (Store × Scope × StreamNode) :=
  match s with
  | .timer _ => .ok (st, sc, .timer ⟨some builtinRef⟩)
  | .atimer _ => .ok (st, sc, .atimer ⟨some builtinRef⟩)
  | .sjoin _ tb ips _ => do
    let leftscope := sc
    let rightscope := sc
    let tm' : TimerNode := ⟨some builtinRef⟩
    let (st1, rsc1, tb') ← checkInvTable st rightscope tb
    let (st2, jref) := resolveJoinStore st1 (tm'.schemaRef.getD 0) (tb'.schemaRef.getD 0)
    let leftscope1 := { leftscope with hasEvent := true }
    let rsc2 ← removeSuppliedInReq leftscope1 rsc1 ips
    let (ips2, lsc2) ← typeCheckJoinInputFrag st2 jref ips leftscope1
    let sc1 ← sc.merge lsc2
    let sc2 ← sc1.merge rsc2
    .ok (st2, sc2, .sjoin tm' tb' ips2 (some jref))

/-- `typeCheckOutput` (typecheck.js lines 573-578): resolve the action's
schema, then check its input arguments. -/
def typeCheckOutputFrag (st : Store) (sc : Scope) (a : ActionNode) :
    Except TCError (ActionNode × Scope) := do
  let a1 ← ensureSchemaAction a
  let (ips2, sc1) ← typeCheckInputArgsFrag st a1.schemaRef a1.in_params sc
  .ok ({ a1 with in_params := ips2 }, sc1)

/-- `addRequiredInputParams(prim, scope)` (typecheck.js lines 815-824):
append an `Undefined(remote=true)` parameter for every required input of the
primitive's schema that is not supplied and pending in `scope._inReq`. -/
def addRequiredInputParams (st : Store) (sc : Scope) (sref : Option Nat)
    (ips : List (String × Value)) : List (String × Value) :=
  let present := ips.map Prod.fst
  (st.getS (sref.getD 0)).inReq.foldl
    (fun acc p =>
      if ¬ present.contains p.1 ∧ amem sc.inReq p.1 then acc ++ [(p.1, .undef true)]
      else acc)
    ips

/-- The source-checking step at the head of `typeCheckRule` (typecheck.js
lines 828-834): the table if present, else the stream, else nothing. -/
def checkSource (st : Store) (sc : Scope) (r : RuleNode) :
    Except TCError (Store × Scope × RuleNode) :=
  match r.table with
  | some t => do
    let (st1, sc1, t') ← checkInvTable st sc t
    .ok (st1, sc1, { r with table := some t' })
  | none =>
    match r.stream with
    | some s => do
      let (st1, sc1, s') ← checkStream st sc s
      .ok (st1, sc1, { r with stream := some s' })
    | none => .ok (st, sc, r)

/-- `addRequiredInputParams` applied to the primitives of the rule's source
(typecheck.js lines 838-844): the fragment's streams contain one primitive
(the join's inner invocation) or none; an invocation table contains one. -/
def addSourceRequiredParams (st : Store) (sc : Scope) (r : RuleNode) : RuleNode :=
  match r.stream with
  | some (.sjoin tm tb ips sref) =>
    let inv := tb.invocation
    let tb' : InvTableNode :=
      { tb with invocation :=
        { inv with in_params := addRequiredInputParams st sc inv.schemaRef inv.in_params } }
    { r with stream := some (.sjoin tm tb' ips sref) }
  | some (.timer _) => r
  | some (.atimer _) => r
  | none =>
    match r.table with
    | some tb =>
      let inv := tb.invocation
      let tb' : InvTableNode :=
        { tb with invocation :=
          { inv with in_params := addRequiredInputParams st sc inv.schemaRef inv.in_params } }
      { r with table := some tb' }
    | none => r

/-- `typeCheckRule(ast, schemas, scope, classes)` (typecheck.js lines
826-854) for the fragment: check the source; set `$has_event` when there was
one (the resolved value is `undefined`, which is `!== null`, for both tables
and streams); push undefined-requireds into the source's primitives; reject
a rule whose actions include a builtin but that has neither stream nor
table (`Cannot return a result without a GET function`); then check each
action and push its undefined-requireds. -/
def typeCheckRuleFrag (st : Store) (sc0 : Scope) (r : RuleNode) :
    Except TCError (Store × Scope × RuleNode) := do
  let (st1, sc1, r1) ← checkSource st sc0 r
  let sc2 := if r1.table.isSome ∨ r1.stream.isSome then { sc1 with hasEvent := true } else sc1
  let r2 := addSourceRequiredParams st1 sc2 r1
  if r2.actions.any (fun a => a.builtinSel) ∧ r2.stream.isNone ∧ r2.table.isNone then
    .error .noGetFunction
  else do
    let acc ← r2.actions.foldlM
      (fun (acc : List ActionNode × Scope) a => do
        let (a', sc') ← typeCheckOutputFrag st1 acc.2 a
        .ok (acc.1 ++ [a'], sc'))
      ([], sc2)
    let acts2 := acc.1.map
      (fun a => { a with in_params := addRequiredInputParams st1 acc.2 a.schemaRef a.in_params })
    .ok (st1, acc.2, { r2 with actions := acts2 })

/-- `typeCheckProgram` (typecheck.js lines 856-879) for a program with no
classes, no principal, no declarations and a single rule: a fresh scope,
`scope.clean()`, then the rule. -/
def typeCheckProgramFrag (st : Store) (r : RuleNode) :
    Except TCError (Store × RuleNode) := do
  let (st1, _, r1) ← typeCheckRuleFrag st Scope.empty r
  .ok (st1, r1)

/-! ## Claims C2, C6, C9 over the fragment -/

/-- The oracle query signature of the concrete scenario: no inputs, one
output `a : Number` (so `@x.y()` is trivially well-typed). -/
def c6oracle : SchemaObj := ⟨["a"], [.number], 4, [], [], [("a", .number)]⟩

/-- The initial store of the concrete scenario. -/
def c6store : Store := initStore c6oracle [("a", 0)]

/-- The concrete program: `timer join @x.y() => notify`, all schemas
unresolved. -/
def c6rule : RuleNode :=
  ⟨some (.sjoin ⟨none⟩ ⟨⟨none, []⟩, none⟩ [] none), none, [⟨true, "notify", none, []⟩]⟩

/-- The store and mutated AST after the first `typeCheckProgram` run. -/
def c6run1 : Store × RuleNode :=
  (typeCheckProgramFrag c6store c6rule).toOption.getD (c6store, c6rule)

/-- The store and AST after running `typeCheckProgram` a second time on the
already-checked AST. -/
def c6run2 : Store × RuleNode :=
  (typeCheckProgramFrag c6run1.1 c6run1.2).toOption.getD c6run1

/-- The contents of the join node's `schema.index` in a given state. -/
def joinIndexOf (p : Store × RuleNode) : IndexMap :=
  match p.2.stream with
  | some (.sjoin _ _ _ (some jref)) => p.1.getI (p.1.getS jref).idxRef
  | _ => []

/-- C6: running the checker a second time on the already-checked AST is NOT
observably neutral.  Both runs succeed, but the join schema's `index`
contents differ between the runs: `resolveJoin` builds the merged index by
reducing into `lhs.schema.index` — for a timer lhs that object is the shared
`Builtin.emptyFunction.index`, so the first run leaks `a ↦ 0` into the
shared builtin and the second run, re-reducing over the polluted map,
produces `a ↦ 1`.  (The spec's own design rule "mutation only ever touches
clones" identifies the reduce accumulator — `lhs.schema.index` instead of
the clone's — as the slip.) -/
theorem C6_second_run_changes_index :
    (typeCheckProgramFrag c6store c6rule).toOption.isSome = true ∧
    (typeCheckProgramFrag c6run1.1 c6run1.2).toOption.isSome = true ∧
    joinIndexOf c6run1 = [("a", 0)] ∧
    joinIndexOf c6run2 = [("a", 1)] ∧
    ¬ joinIndexOf c6run1 = joinIndexOf c6run2 :=
  ⟨rfl, rfl, rfl, rfl, by decide⟩

/-- C2 counterexample: type-checking a `Timer` stream succeeds and leaves
`schema` pointing at the very heap cell of the shared builtin
`emptyFunction` signature (`builtinRef`, which pre-exists in the store) —
not at a fresh clone, contradicting "no node's schema is a shared built-in
signature".  The store is returned unchanged: nothing was allocated. -/
theorem C2_timer_shares_builtin_cex :
    checkStream c6store Scope.empty (.timer ⟨none⟩) =
      .ok (c6store, Scope.empty, .timer ⟨some builtinRef⟩) ∧
    builtinRef < c6store.sheap.length :=
  ⟨rfl, by decide⟩

/-! ### Inversion helpers for the heap checker -/

theorem except_bind_ok_inv {ε α β : Type} (e : Except ε α) (f : α → Except ε β) (b : β)
    (h : (e >>= f) = .ok b) : ∃ a, e = .ok a ∧ f a = .ok b := by
  cases e with
  | error e' =>
    simp only [Bind.bind, Except.bind] at h
    exact Except.noConfusion h
  | ok a => exact ⟨a, rfl, by simpa only [Bind.bind, Except.bind] using h⟩

theorem getD_append_length {α : Type} (l : List α) (x d : α) :
    (l ++ [x]).getD l.length d = x := by
  induction l with
  | nil => rfl
  | cons a rest ih => simpa using ih

theorem getD_append_lt {α : Type} (l l' : List α) (n : Nat) (d : α) (h : n < l.length) :
    (l ++ l').getD n d = l.getD n d := by
  induction l generalizing n with
  | nil => simp at h
  | cons a rest ih =>
    cases n with
    | zero => rfl
    | succ m => simpa using ih m (by simpa using h)

theorem getD_set_self {α : Type} (l : List α) (n : Nat) (x d : α) (h : n < l.length) :
    (l.set n x).getD n d = x := by
  induction l generalizing n with
  | nil => simp at h
  | cons a rest ih =>
    cases n with
    | zero => rfl
    | succ m => simpa using ih m (by simpa using h)

/-- `typeCheckInput` leaves the invocation's `schema` pointer untouched (it
only rewrites `in_params`). -/
theorem typeCheckInputFrag_schemaRef (st : Store) (sc : Scope) (inv : InvNode)
    (inv2 : InvNode) (sc1 : Scope) (h : typeCheckInputFrag st sc inv = .ok (inv2, sc1)) :
    inv2.schemaRef = inv.schemaRef := by
  unfold typeCheckInputFrag at h
  cases hia : typeCheckInputArgsFrag st inv.schemaRef inv.in_params sc with
  | error e =>
    rw [hia] at h
    simp only [Bind.bind, Except.bind] at h
    exact Except.noConfusion h
  | ok pr =>
    obtain ⟨ips, scx⟩ := pr
    rw [hia] at h
    simp only [Bind.bind, Except.bind, pure, Except.pure, Except.ok.injEq,
      Prod.mk.injEq] at h
    obtain ⟨hi, -⟩ := h
    rw [← hi]

/-- Inversion of `checkInvTable` on a not-yet-resolved invocation: for EVERY
store, scope and table node, a successful check resolves the inner primitive
to the shared oracle signature (`oracleRef`, no clone), allocates exactly one
fresh schema cell — at address `st.sheap.length`, so distinct from every
pre-existing cell — with a fresh index cell, and hands that clone to the
table node. -/
theorem checkInvTable_fresh_inv (st : Store) (sc : Scope) (t : InvTableNode)
    (st' : Store) (sc' : Scope) (t' : InvTableNode)
    (hfresh : t.invocation.schemaRef = none)
    (h : checkInvTable st sc t = .ok (st', sc', t')) :
    st' = (cloneSchema st oracleRef).1 ∧
    st'.sheap.length = st.sheap.length + 1 ∧
    t'.schemaRef = some st.sheap.length ∧
    t'.invocation.schemaRef = some oracleRef ∧
    (st'.getS st.sheap.length).idxRef = st.iheap.length := by
  unfold checkInvTable at h
  have heq : (ensureSchemaQuery t.invocation).schemaRef = some oracleRef := by
    simp [ensureSchemaQuery, hfresh]
  simp only [heq, Option.getD_some] at h
  rcases hcs : cloneSchema st oracleRef with ⟨st1, r⟩
  rw [hcs] at h
  dsimp only at h
  obtain ⟨pr, hti, h⟩ := except_bind_ok_inv _ _ _ h
  obtain ⟨inv2, sc1⟩ := pr
  dsimp only at h
  simp only [Except.ok.injEq, Prod.mk.injEq] at h
  obtain ⟨hst, hsc, ht'⟩ := h
  have hinv2 := typeCheckInputFrag_schemaRef _ _ _ _ _ hti
  rw [heq] at hinv2
  have hst1 : st1 = (cloneSchema st oracleRef).1 := by rw [hcs]
  have hr : r = st.sheap.length := by
    rw [show r = (cloneSchema st oracleRef).2 from by rw [hcs]]
    simp [cloneSchema, Store.allocS, Store.allocI]
  subst hst
  refine ⟨rfl, ?_, ?_, ?_, ?_⟩
  · rw [hst1]
    simp [cloneSchema, Store.allocS, Store.allocI]
  · rw [← ht']
    exact congrArg some hr
  · rw [← ht']
    exact hinv2
  · rw [hst1]
    show ((cloneSchema st oracleRef).1.getS st.sheap.length).idxRef = st.iheap.length
    simp only [cloneSchema, Store.allocS, Store.allocI, Store.getS]
    rw [getD_append_length]

/-- The checked result of the C2 witness scenario (`timer join @x.y()` from
a fresh AST over `c6store`). -/
def c2res : Store × Scope × StreamNode :=
  (checkStream c6store Scope.empty (.sjoin ⟨none⟩ ⟨⟨none, []⟩, none⟩ [] none)).toOption.getD
    (c6store, Scope.empty, .timer ⟨none⟩)

/-- The checked result of the C2 witness table (`@x.y()` alone through
`typeCheckTable` over `c6store`). -/
def c2tableRes : Store × Scope × InvTableNode :=
  (checkInvTable c6store Scope.empty ⟨⟨none, []⟩, none⟩).toOption.getD
    (c6store, Scope.empty, ⟨⟨none, []⟩, none⟩)

/-- C2 (amended): for EVERY store, scope and fragment AST on which the check
succeeds, every node ends up with a non-null schema, and each *composite*
node receives a freshly allocated clone: a checked `Invocation` table's
schema is the new cell `st.sheap.length` (with a new index cell), and a
join's schema is the further new cell `st.sheap.length + 1` — fresh and
mutually distinct.  But a `Timer` or `AtTimer` stream's schema is the shared
builtin `emptyFunction` cell itself (nothing is allocated), an invocation's
inner primitive keeps the shared Thingpedia signature cell itself
(`oracleRef`), and the join schema's `index` aliases the index object of its
left child's (the builtin's) schema. -/
theorem C2_sharing_amended :
    (∀ (st : Store) (sc : Scope) (t : InvTableNode) (st' : Store) (sc' : Scope)
        (t' : InvTableNode),
      t.invocation.schemaRef = none →
      checkInvTable st sc t = .ok (st', sc', t') →
      t'.schemaRef = some st.sheap.length ∧
      t'.invocation.schemaRef = some oracleRef ∧
      st'.sheap.length = st.sheap.length + 1 ∧
      (st'.getS st.sheap.length).idxRef = st.iheap.length) ∧
    (∀ (st : Store) (sc : Scope) (tm : TimerNode) (st' : Store) (sc' : Scope)
        (s' : StreamNode),
      checkStream st sc (.timer tm) = .ok (st', sc', s') →
      s' = .timer ⟨some builtinRef⟩ ∧ st' = st) ∧
    (∀ (st : Store) (sc : Scope) (tm : TimerNode) (st' : Store) (sc' : Scope)
        (s' : StreamNode),
      checkStream st sc (.atimer tm) = .ok (st', sc', s') →
      s' = .atimer ⟨some builtinRef⟩ ∧ st' = st) ∧
    (∀ (st : Store) (sc : Scope) (tm : TimerNode) (tb : InvTableNode)
        (ips : List (String × Value)) (sref : Option Nat)
        (st' : Store) (sc' : Scope) (s' : StreamNode),
      tb.invocation.schemaRef = none →
      builtinRef < st.sheap.length →
      checkStream st sc (.sjoin tm tb ips sref) = .ok (st', sc', s') →
      ∃ tb' ips2,
        s' = .sjoin ⟨some builtinRef⟩ tb' ips2 (some (st.sheap.length + 1)) ∧
        tb'.schemaRef = some st.sheap.length ∧
        tb'.invocation.schemaRef = some oracleRef ∧
        st'.sheap.length = st.sheap.length + 2 ∧
        (st'.getS (st.sheap.length + 1)).idxRef = (st.getS builtinRef).idxRef) := by
  refine ⟨?_, ?_, ?_, ?_⟩
  · intro st sc t st' sc' t' hfresh h
    obtain ⟨-, h2, h3, h4, h5⟩ := checkInvTable_fresh_inv st sc t st' sc' t' hfresh h
    exact ⟨h3, h4, h2, h5⟩
  · intro st sc tm st' sc' s' h
    unfold checkStream at h
    simp only [Except.ok.injEq, Prod.mk.injEq] at h
    obtain ⟨h1, h2, h3⟩ := h
    exact ⟨h3.symm, h1.symm⟩
  · intro st sc tm st' sc' s' h
    unfold checkStream at h
    simp only [Except.ok.injEq, Prod.mk.injEq] at h
    obtain ⟨h1, h2, h3⟩ := h
    exact ⟨h3.symm, h1.symm⟩
  · intro st sc tm tb ips sref st' sc' s' hfresh hb h
    unfold checkStream at h
    dsimp only at h
    obtain ⟨trip, hct, h⟩ := except_bind_ok_inv _ _ _ h
    obtain ⟨st1, rsc1, tb'⟩ := trip
    obtain ⟨hst1, hlen1, hsref, hinv, hidx1⟩ :=
      checkInvTable_fresh_inv st sc tb st1 rsc1 tb' hfresh hct
    rw [hsref] at h
    dsimp only [Option.getD, resolveJoinStore] at h
    obtain ⟨rsc2, hrm, h⟩ := except_bind_ok_inv _ _ _ h
    try dsimp only at h
    obtain ⟨ji, hji, h⟩ := except_bind_ok_inv _ _ _ h
    obtain ⟨ips2, lsc2⟩ := ji
    try dsimp only at h
    obtain ⟨sc1m, hm1, h⟩ := except_bind_ok_inv _ _ _ h
    try dsimp only at h
    obtain ⟨sc2m, hm2, h⟩ := except_bind_ok_inv _ _ _ h
    simp only [pure, Except.pure, Except.ok.injEq, Prod.mk.injEq] at h
    obtain ⟨hst', hsc', hs'⟩ := h
    subst hst1
    have hjref : (cloneSchema (cloneSchema st oracleRef).1 builtinRef).2
        = st.sheap.length + 1 := by
      simp [cloneSchema, Store.allocS, Store.allocI]
    refine ⟨tb', ips2, ?_, hsref, hinv, ?_, ?_⟩
    · rw [← hs', hjref]
    · rw [← hst']
      simp [cloneSchema, Store.allocS, Store.allocI, Store.setS, Store.setI]
    · rw [← hst']
      simp only [cloneSchema, Store.allocS, Store.allocI, Store.setS, Store.setI,
        Store.getS, Store.getI]
      rw [show ((st.sheap ++ _ : List SchemaObj).length) = st.sheap.length + 1 from by
        simp]
      rw [getD_set_self]
      · rw [getD_append_lt st.sheap _ builtinRef emptySchemaObj hb]
      · simp

/-- Witness for C2: each conjunct of the amended statement applied at a
concrete successful run over `c6store` — the invocation table `@x.y()`
through `typeCheckTable`, a `Timer` and an `AtTimer` stream, and the full
`timer join @x.y()` stream. -/
theorem C2_sharing_amended_witness :
    ((⟨⟨none, []⟩, none⟩ : InvTableNode).invocation.schemaRef = none ∧
      checkInvTable c6store Scope.empty ⟨⟨none, []⟩, none⟩ =
        .ok (c2tableRes.1, c2tableRes.2.1, c2tableRes.2.2) ∧
      (c2tableRes.2.2.schemaRef = some c6store.sheap.length ∧
        c2tableRes.2.2.invocation.schemaRef = some oracleRef ∧
        c2tableRes.1.sheap.length = c6store.sheap.length + 1 ∧
        (c2tableRes.1.getS c6store.sheap.length).idxRef = c6store.iheap.length)) ∧
    (∃ stT scT sT,
      checkStream c6store Scope.empty (.timer ⟨none⟩) = .ok (stT, scT, sT) ∧
      sT = .timer ⟨some builtinRef⟩ ∧ stT = c6store) ∧
    (∃ stA scA sA,
      checkStream c6store Scope.empty (.atimer ⟨none⟩) = .ok (stA, scA, sA) ∧
      sA = .atimer ⟨some builtinRef⟩ ∧ stA = c6store) ∧
    (builtinRef < c6store.sheap.length ∧
      checkStream c6store Scope.empty (.sjoin ⟨none⟩ ⟨⟨none, []⟩, none⟩ [] none) =
        .ok (c2res.1, c2res.2.1, c2res.2.2) ∧
      ∃ tb' ips2,
        c2res.2.2 = .sjoin ⟨some builtinRef⟩ tb' ips2 (some (c6store.sheap.length + 1)) ∧
        tb'.schemaRef = some c6store.sheap.length ∧
        tb'.invocation.schemaRef = some oracleRef ∧
        c2res.1.sheap.length = c6store.sheap.length + 2 ∧
        (c2res.1.getS (c6store.sheap.length + 1)).idxRef =
          (c6store.getS builtinRef).idxRef) := by
  have hct : checkInvTable c6store Scope.empty ⟨⟨none, []⟩, none⟩ =
      .ok (c2tableRes.1, c2tableRes.2.1, c2tableRes.2.2) := by rfl
  have hcs : checkStream c6store Scope.empty (.sjoin ⟨none⟩ ⟨⟨none, []⟩, none⟩ [] none) =
      .ok (c2res.1, c2res.2.1, c2res.2.2) := by rfl
  refine ⟨⟨rfl, hct, ?_⟩, ?_, ?_, by decide, hcs, ?_⟩
  · exact C2_sharing_amended.1 c6store Scope.empty ⟨⟨none, []⟩, none⟩
      c2tableRes.1 c2tableRes.2.1 c2tableRes.2.2 rfl hct
  · exact ⟨c6store, Scope.empty, .timer ⟨some builtinRef⟩, rfl,
      C2_sharing_amended.2.1 c6store Scope.empty ⟨none⟩ c6store Scope.empty
        (.timer ⟨some builtinRef⟩) rfl⟩
  · exact ⟨c6store, Scope.empty, .atimer ⟨some builtinRef⟩, rfl,
      C2_sharing_amended.2.2.1 c6store Scope.empty ⟨none⟩ c6store Scope.empty
        (.atimer ⟨some builtinRef⟩) rfl⟩
  · exact C2_sharing_amended.2.2.2 c6store Scope.empty ⟨none⟩ ⟨⟨none, []⟩, none⟩ [] none
      c2res.1 c2res.2.1 c2res.2.2 rfl (by decide) hcs

/-! ## Claim C9: rules without a GET function -/

theorem addSourceRequiredParams_parts (st : Store) (sc : Scope) (r : RuleNode) :
    (addSourceRequiredParams st sc r).actions = r.actions ∧
    (addSourceRequiredParams st sc r).stream.isSome = r.stream.isSome ∧
    (addSourceRequiredParams st sc r).table.isSome = r.table.isSome := by
  unfold addSourceRequiredParams
  cases hs : r.stream with
  | some s =>
    cases s with
    | timer t => simp [hs]
    | atimer t => simp [hs]
    | sjoin tm tb ips sref => simp [hs]
  | none =>
    cases ht : r.table with
    | some tb => simp [hs, ht]
    | none => simp [hs, ht]

theorem checkSource_parts (st : Store) (sc : Scope) (r : RuleNode)
    (st1 : Store) (sc1 : Scope) (r1 : RuleNode)
    (h : checkSource st sc r = .ok (st1, sc1, r1)) :
    r1.actions = r.actions ∧
    r1.stream.isSome = r.stream.isSome ∧ r1.table.isSome = r.table.isSome := by
  unfold checkSource at h
  cases ht : r.table with
  | some t =>
    rw [ht] at h
    dsimp only at h
    cases hct : checkInvTable st sc t with
    | error e =>
      rw [hct] at h
      simp only [Bind.bind, Except.bind] at h
      exact Except.noConfusion h
    | ok trip =>
      obtain ⟨a, b, c⟩ := trip
      rw [hct] at h
      simp only [Bind.bind, Except.bind, Except.ok.injEq, Prod.mk.injEq] at h
      obtain ⟨-, -, hr⟩ := h
      subst hr
      simp [ht]
  | none =>
    rw [ht] at h
    dsimp only at h
    cases hs : r.stream with
    | some sn =>
      rw [hs] at h
      dsimp only at h
      cases hcs : checkStream st sc sn with
      | error e =>
        rw [hcs] at h
        simp only [Bind.bind, Except.bind] at h
        exact Except.noConfusion h
      | ok trip =>
        obtain ⟨a, b, c⟩ := trip
        rw [hcs] at h
        simp only [Bind.bind, Except.bind, Except.ok.injEq, Prod.mk.injEq] at h
        obtain ⟨-, -, hr⟩ := h
        subst hr
        simp [hs, ht]
    | none =>
      rw [hs] at h
      dsimp only at h
      simp only [Except.ok.injEq, Prod.mk.injEq] at h
      obtain ⟨-, -, hr⟩ := h
      subst hr
      exact ⟨rfl, by rw [hs], by rw [ht]⟩

/-- C9: a rule with neither stream nor table whose only action is the
builtin `notify` fails with the `NoGetFunction` error ("Cannot return a
result without a GET function"); and whenever a rule's stream-or-table step
checks successfully and its only action is a fresh builtin `notify`, the
whole rule check succeeds. -/
theorem C9_noGetFunction_rule (st : Store) (sc : Scope) (a : ActionNode)
    (r : RuleNode) (st1 : Store) (sc1 : Scope) (r1 : RuleNode)
    (hb : a.builtinSel = true) (hch : a.channel = "notify") :
    typeCheckRuleFrag st sc ⟨none, none, [a]⟩ = .error .noGetFunction ∧
    (checkSource st sc r = .ok (st1, sc1, r1) →
     (r.stream.isSome ∨ r.table.isSome) →
     r.actions = [⟨true, "notify", none, []⟩] →
     ∃ out, typeCheckRuleFrag st sc r = .ok out) := by
  constructor
  · simp [typeCheckRuleFrag, checkSource, addSourceRequiredParams,
      Bind.bind, Except.bind, hb]
  · intro hsrc hsome hacts
    obtain ⟨hact1, hstr, htab⟩ := checkSource_parts st sc r st1 sc1 r1 hsrc
    have hsome1 : r1.table.isSome ∨ r1.stream.isSome := by
      rcases hsome with hh | hh
      · right; rw [hstr]; exact hh
      · left; rw [htab]; exact hh
    unfold typeCheckRuleFrag
    rw [hsrc]
    simp only [Bind.bind, Except.bind]
    rw [if_pos hsome1]
    obtain ⟨hA, hS, hT⟩ :=
      addSourceRequiredParams_parts st1 { sc1 with hasEvent := true } r1
    have hno : ¬ ((addSourceRequiredParams st1 { sc1 with hasEvent := true } r1).actions.any
          (fun a => a.builtinSel) = true ∧
        (addSourceRequiredParams st1 { sc1 with hasEvent := true } r1).stream.isNone = true ∧
        (addSourceRequiredParams st1 { sc1 with hasEvent := true } r1).table.isNone = true) := by
      rintro ⟨-, hsn, htn⟩
      rcases hsome1 with hh | hh
      · rw [← hT] at hh
        rw [Option.isNone_iff_eq_none] at htn
        rw [htn] at hh
        simp at hh
      · rw [← hS] at hh
        rw [Option.isNone_iff_eq_none] at hsn
        rw [hsn] at hh
        simp at hh
    rw [if_neg hno]
    have hacts2 : (addSourceRequiredParams st1 { sc1 with hasEvent := true } r1).actions
        = [⟨true, "notify", none, []⟩] := by
      rw [hA, hact1, hacts]
    rw [hacts2]
    simp [List.foldlM, typeCheckOutputFrag, ensureSchemaAction, typeCheckInputArgsFrag,
      Bind.bind, Except.bind, pure, Except.pure]

/-- The result of the source-checking step on the concrete rule, used by the
C9 witness. -/
def c9src : Store × Scope × RuleNode :=
  (checkSource c6store Scope.empty c6rule).toOption.getD (c6store, Scope.empty, c6rule)

/-- Witness for C9: the concrete sourceless notify-rule fails with
`NoGetFunction`, and the concrete `timer join @x.y() => notify` rule
succeeds. -/
theorem C9_noGetFunction_rule_witness :
    typeCheckRuleFrag c6store Scope.empty ⟨none, none, [⟨true, "notify", none, []⟩]⟩ =
      .error .noGetFunction ∧
    ∃ out, typeCheckRuleFrag c6store Scope.empty c6rule = .ok out :=
  ⟨(C9_noGetFunction_rule c6store Scope.empty ⟨true, "notify", none, []⟩ c6rule
      c9src.1 c9src.2.1 c9src.2.2 rfl rfl).1,
   (C9_noGetFunction_rule c6store Scope.empty ⟨true, "notify", none, []⟩ c6rule
      c9src.1 c9src.2.1 c9src.2.2 rfl rfl).2 rfl (Or.inl rfl) rfl⟩

end ThingTalk
